import Mathlib

/-!
Verification of the quiz-analysis scoring and comparison engine:
a shallow embedding of `src/data_loader.py` (DataLoader) and
`scripts/analyze_results.py` (PerformanceAnalyzer), with theorems about
the loading, scoring, comparison and aggregation behaviour.

Modelling conventions:
* CSV tables are lists of already-parsed rows; a cell read by pandas that
  is empty is IEEE NaN, modelled as `none` (`Option String` for answer
  cells, `Option ℚ` for numeric cells).  NaN propagates through arithmetic
  (`none` absorbs) and every NaN comparison is false, as in Python.
* Python dicts keyed by strings are association lists in insertion order;
  `updateA` mutates an existing key in place, exactly like a dict store.
* Fallible code (`raise`, `ZeroDivisionError`, `TypeError`, `KeyError`)
  is modelled with `Except String`.
* `np.std` is the population standard deviation, a real number; Python's
  `round(x, n)` rounds half to even.
-/

namespace QuizTool

/-! ## Association-list helpers (Python dict semantics) -/

def alookup {β : Type} : List (String × β) → String → Option β
  | [], _ => none
  | (k, v) :: rest, key => if k = key then some v else alookup rest key

/-- Store `key ↦ v` in a dict: replace in place if present, else append. -/
def updateA {β : Type} : List (String × β) → String → β → List (String × β)
  | [], key, v => [(key, v)]
  | (k, w) :: rest, key, v =>
      if k = key then (key, v) :: rest else (k, w) :: updateA rest key v

def containsKey {β : Type} (l : List (String × β)) (key : String) : Bool :=
  (alookup l key).isSome

/-- Deduplicating accumulation, keeping first-seen order (Python set built
from a traversal, then iterated in a fixed order). -/
def dedupAcc : List String → List String → List String
  | acc, [] => acc
  | acc, c :: rest => if c ∈ acc then dedupAcc acc rest else dedupAcc (acc ++ [c]) rest

/-! ## NaN-aware rationals: `none` is IEEE NaN -/

/-- A numeric value as Python sees it: `none` models IEEE NaN. -/
abbrev NQ := Option ℚ

def nadd : NQ → NQ → NQ
  | some a, some b => some (a + b)
  | _, _ => none

/-- Python `sum` over possibly-NaN floats. -/
def nsum (l : List NQ) : NQ := l.foldl nadd (some 0)

/-- Python `min(a, b)`: keeps `a` unless `b < a`; NaN comparisons are false. -/
def nmin2 : NQ → NQ → NQ
  | some x, some y => if y < x then some y else some x
  | a, _ => a

/-- Python `max(a, b)`: keeps `a` unless `a < b`; NaN comparisons are false. -/
def nmax2 : NQ → NQ → NQ
  | some x, some y => if x < y then some y else some x
  | a, _ => a

/-- Python `min` over a nonempty list (left fold from the first element). -/
def listMin : List NQ → NQ
  | [] => none
  | x :: xs => xs.foldl nmin2 x

/-- Python `max` over a nonempty list. -/
def listMax : List NQ → NQ
  | [] => none
  | x :: xs => xs.foldl nmax2 x

/-- Round half to even, Python's built-in rounding rule. -/
def rhe (x : ℚ) : ℤ :=
  let f := ⌊x⌋
  if x - f < 1/2 then f
  else if 1/2 < x - f then f + 1
  else if f % 2 = 0 then f else f + 1

/-- Python `round(x, n)` on exact rationals. -/
def roundTo (n : ℕ) (x : ℚ) : ℚ := (rhe (x * 10 ^ n) : ℚ) / 10 ^ n

/-! ## Data model (DataLoader state) -/

structure Question where
  text : String
  category : String
  correct_answer : String
  worth : ℤ
deriving Repr, DecidableEq

structure Response where
  timestamp : String
  answer : Option String
  is_correct : Bool
  points_earned : ℤ
  worth : ℤ
deriving Repr, DecidableEq

structure SelfAssessment where
  timestamp : String
  scores : List (String × NQ)
deriving Repr, DecidableEq

structure LoadedUser where
  responses : List (String × Response)
  self_assessment : Option SelfAssessment
deriving Repr, DecidableEq

/-! ## Input tables (already column-renamed to canonical names) -/

/-- One row of `questions.csv` after the rename pass, with `value` parsed. -/
structure QRow where
  question : String
  category : String
  answer : String
  value : ℤ
deriving Repr, DecidableEq

/-- One row of `results.csv`; `cells` maps a column header to the raw cell,
`none` standing for an empty (NaN) cell. -/
structure RRow where
  user_id : String
  date_time : String
  cells : List (String × Option String)
deriving Repr, DecidableEq

structure RespFile where
  cols : List String
  rows : List RRow
deriving Repr, DecidableEq

/-- One row of `self_assessment.csv`; numeric cells, `none` = NaN. -/
structure SARow where
  user_id : String
  date_time : String
  cells : List (String × NQ)
deriving Repr, DecidableEq

structure SAFile where
  cols : List String
  rows : List SARow
deriving Repr, DecidableEq

/-! ## DataLoader._load_questions -/

/-- Ids `Q{count+1}` assigned in file order, starting from `count` loaded. -/
def load_questions_from (n : ℕ) : List QRow → List (String × Question)
  | [] => []
  | r :: rest =>
      ("Q" ++ toString (n + 1),
       { text := r.question, category := r.category,
         correct_answer := r.answer, worth := r.value }) :: load_questions_from (n + 1) rest

/-- Ids `Q1`, `Q2`, … assigned in file order. -/
def load_questions (qrows : List QRow) : List (String × Question) :=
  load_questions_from 0 qrows

/-- `set(df["category"].unique())`, determinised to first-seen order. -/
def quiz_categories (qrows : List QRow) : List String :=
  dedupAcc [] (qrows.map QRow.category)

/-! ## DataLoader._load_responses -/

/-- Grade one question against one response row: exact equality against the
correct answer (NaN cell never equal), full worth if correct else 0. -/
def make_response (q : Question) (row : RRow) : Response :=
  let answer := (alookup row.cells q.text).getD none
  let correct := decide (answer = some q.correct_answer)
  { timestamp := row.date_time, answer := answer, is_correct := correct,
    points_earned := if correct then q.worth else 0, worth := q.worth }

/-- The inner question loop of `_load_responses`: for every question whose
text is a column of the file, store (overwrite) the graded response. -/
def write_row (qs : List (String × Question)) (cols : List String) (row : RRow)
    (rs : List (String × Response)) : List (String × Response) :=
  qs.foldl (fun rs p =>
    if p.2.text ∈ cols then updateA rs p.1 (make_response p.2 row) else rs) rs

/-- The responses derived from a single row, starting from an empty dict. -/
def row_responses (qs : List (String × Question)) (cols : List String) (row : RRow) :
    List (String × Response) :=
  write_row qs cols row []

/-- Apply `f` to the record stored under `uid`, in place. -/
def updU : List (String × LoadedUser) → String → (LoadedUser → LoadedUser) →
    List (String × LoadedUser)
  | [], _, _ => []
  | (k, u) :: rest, uid, f =>
      if k = uid then (k, f u) :: rest else (k, u) :: updU rest uid f

/-- One iteration of the row loop of `_load_responses`. -/
def process_row (qs : List (String × Question)) (cols : List String)
    (users : List (String × LoadedUser)) (row : RRow) : List (String × LoadedUser) :=
  let users := if containsKey users row.user_id then users
               else users ++ [(row.user_id, { responses := [], self_assessment := none })]
  updU users row.user_id (fun u => { u with responses := write_row qs cols row u.responses })

/-- `_load_responses`: required-column check, then the row loop. -/
def load_responses (qs : List (String × Question)) (rf : RespFile) :
    Except String (List (String × LoadedUser)) :=
  if "date_time" ∈ rf.cols ∧ "user_id" ∈ rf.cols then
    .ok (rf.rows.foldl (process_row qs rf.cols) [])
  else .error "Missing required columns in results.csv"

/-! ## DataLoader._load_self_assessment -/

/-- The category loop of `_load_self_assessment`: every quiz category that
is a column of the file gets an entry, the raw cell value (NaN when the
cell is empty — `float(nan)` is stored, not skipped). -/
def sa_row_scores (cats cols : List String) (row : SARow) : List (String × NQ) :=
  (cats.filter (fun c => c ∈ cols)).map (fun c => (c, (alookup row.cells c).getD none))

def make_sa_record (cats cols : List String) (row : SARow) : SelfAssessment :=
  { timestamp := row.date_time, scores := sa_row_scores cats cols row }

/-- One iteration of the row loop: a row for an unknown user is dropped;
a row for a known user replaces the whole self-assessment record. -/
def process_sa_row (cats cols : List String) (users : List (String × LoadedUser))
    (row : SARow) : List (String × LoadedUser) :=
  if containsKey users row.user_id then
    updU users row.user_id
      (fun u => { u with self_assessment := some (make_sa_record cats cols row) })
  else users

/-- `_load_self_assessment`: a missing file (`none`) only prints a warning
and leaves every user without a self-assessment record. -/
def load_self_assessment (cats : List String) (saf : Option SAFile)
    (users : List (String × LoadedUser)) : Except String (List (String × LoadedUser)) :=
  match saf with
  | none => .ok users
  | some f =>
      if "date_time" ∈ f.cols ∧ "user_id" ∈ f.cols then
        .ok (f.rows.foldl (process_sa_row cats f.cols) users)
      else .error "Missing required columns in self_assessment.csv"

/-! ## DataLoader._combine_data -/

def cat_of (qs : List (String × Question)) (qid : String) : String :=
  ((alookup qs qid).map Question.category).getD ""

def cat_responses (qs : List (String × Question)) (u : LoadedUser) (c : String) :
    List (String × Response) :=
  u.responses.filter (fun p => cat_of qs p.1 = c)

def points_possible_in (qs : List (String × Question)) (u : LoadedUser) (c : String) : ℤ :=
  ((cat_responses qs u c).map (fun p => p.2.worth)).sum

def points_earned_in (qs : List (String × Question)) (u : LoadedUser) (c : String) : ℤ :=
  ((cat_responses qs u c).map (fun p => p.2.points_earned)).sum

structure CatScore where
  points_earned : ℤ
  points_possible : ℤ
  normalized_score : ℚ
  /-- Outer `Option`: the key may be absent from the dict entirely;
  inner `NQ`: the stored normalised value may itself be NaN. -/
  normalized_self_assessment : Option NQ
deriving Repr, DecidableEq

structure TotalScore where
  points_earned : ℤ
  points_possible : ℤ
  normalized_score : ℚ
deriving Repr, DecidableEq

structure UserData where
  responses : List (String × Response)
  self_assessment : Option SelfAssessment
  total_score : TotalScore
  score_by_category : List (String × CatScore)
deriving Repr, DecidableEq

structure Metadata where
  total_questions : ℕ
  total_users : ℕ
  total_points_possible : ℤ
  sa_categories : List String
  sa_max_score : ℚ
deriving Repr, DecidableEq

structure Model where
  questions : List (String × Question)
  users : List (String × UserData)
  metadata : Metadata
deriving Repr, DecidableEq

/-- The per-category aggregate of `_combine_data`: earned/possible summed
over the user's responses in the category, normalised score 0 when
possible is not positive, and the normalised self-assessment attached
exactly when the user's record has that category. -/
def make_cat_score (qs : List (String × Question)) (u : LoadedUser) (c : String) : CatScore :=
  let earned := points_earned_in qs u c
  let possible := points_possible_in qs u c
  { points_earned := earned, points_possible := possible,
    normalized_score := if 0 < possible then (earned : ℚ) / (possible : ℚ) else 0,
    normalized_self_assessment :=
      u.self_assessment.bind
        (fun sa => (alookup sa.scores c).map (fun v => v.map (fun s => s / 10))) }

/-- The categories of the user's answered questions, first-seen order
(the insertion order of the `category_scores` dict). -/
def user_categories (qs : List (String × Question)) (u : LoadedUser) : List String :=
  dedupAcc [] (u.responses.map (fun p => cat_of qs p.1))

def make_user_data (qs : List (String × Question)) (u : LoadedUser) : UserData :=
  let total_earned := (u.responses.map (fun p => p.2.points_earned)).sum
  let total_possible := (u.responses.map (fun p => p.2.worth)).sum
  { responses := u.responses, self_assessment := u.self_assessment,
    total_score :=
      { points_earned := total_earned, points_possible := total_possible,
        normalized_score :=
          if 0 < total_possible then (total_earned : ℚ) / (total_possible : ℚ) else 0 },
    score_by_category := (user_categories qs u).map (fun c => (c, make_cat_score qs u c)) }

/-- The global self-assessed-category set: union over users of the keys of
their self-assessment scores, determinised to traversal order. -/
def sa_categories_of (users : List (String × LoadedUser)) : List String :=
  users.foldl (fun acc p =>
    match p.2.self_assessment with
    | some sa => dedupAcc acc (sa.scores.map Prod.fst)
    | none => acc) []

def combine_data (qs : List (String × Question)) (users : List (String × LoadedUser)) :
    Model :=
  { questions := qs,
    users := users.map (fun p => (p.1, make_user_data qs p.2)),
    metadata :=
      { total_questions := qs.length,
        total_users := users.length,
        total_points_possible := (qs.map (fun p => p.2.worth)).sum,
        sa_categories := sa_categories_of users,
        sa_max_score := 10 } }

/-- `DataLoader.load_all_data`: questions, responses, self-assessment,
then the combine step. -/
def load_all_data (qrows : List QRow) (rf : RespFile) (saf : Option SAFile) :
    Except String Model := do
  let users1 ← load_responses (load_questions qrows) rf
  let users2 ← load_self_assessment (quiz_categories qrows) saf users1
  return combine_data (load_questions qrows) users2

/-! ## PerformanceAnalyzer: per-user analysis -/

structure McScore where
  category : String
  points : ℤ
  possible : ℤ
  percentage : ℚ
deriving Repr, DecidableEq

structure SelfScore where
  category : String
  score : NQ
  out_of : ℚ
deriving Repr, DecidableEq

structure Comparison where
  category : String
  quiz_normalized : ℚ
  self_normalized : NQ
  difference : NQ
deriving Repr, DecidableEq

/-- Population variance, `np.std(l) ** 2` for a nonempty list. -/
def popVariance (l : List ℚ) : ℚ :=
  ((l.map (fun x => (x - l.sum / l.length) ^ 2)).sum) / l.length

/-- Extract the rationals when no element is NaN. -/
def seqOpt : List NQ → Option (List ℚ)
  | [] => some []
  | none :: _ => none
  | some x :: rest => (seqOpt rest).map (fun l => x :: l)

/-- `np.std(differences)`, the population standard deviation. -/
noncomputable def np_std (ds : List ℚ) : ℝ := Real.sqrt (popVariance ds)

/-- `np.std(differences) if len(differences) > 1 else 0`; NaN in, NaN out. -/
noncomputable def std_dev_of (ds : List NQ) : Option ℝ :=
  if 1 < ds.length then (seqOpt ds).map np_std else some 0

/-- `consistency_score = (1 - min(std_dev, 1)) * 100`. -/
noncomputable def consistency_of (ds : List NQ) : Option ℝ :=
  (std_dev_of ds).map (fun s => (1 - min s 1) * 100)

/-- `accuracy_score = (1 - avg_abs_diff) * 100`. -/
def accuracy_of (ds : List NQ) : NQ :=
  (nsum (ds.map (fun d => d.map abs))).map (fun s => (1 - s / ds.length) * 100)

/-- Round half to even on a real (Python `round` applied to the exact value). -/
noncomputable def rheR (x : ℝ) : ℤ :=
  let f := ⌊x⌋
  if x - f < 1/2 then f
  else if 1/2 < x - f then f + 1
  else if f % 2 = 0 then f else f + 1

noncomputable def round1R (x : ℝ) : ℝ := (rheR (x * 10) : ℝ) / 10

structure Proficiency where
  /-- `none` models a NaN proficiency (NaN differences upstream). -/
  overall_proficiency : Option ℝ
  performance_score : ℚ
  accuracy_score : NQ
  consistency_score : Option ℝ
  differences : List NQ
  std_dev : Option ℝ

instance : Inhabited Proficiency :=
  ⟨{ overall_proficiency := none, performance_score := 0, accuracy_score := none,
     consistency_score := none, differences := [], std_dev := none }⟩

/-- `PerformanceAnalyzer.calculate_proficiency_score`: `None` (absent) when
the user has no comparison entries, otherwise the 60/20/20 blend. -/
noncomputable def calculate_proficiency_score (perf : ℚ) (comps : List Comparison) :
    Option Proficiency :=
  if comps.isEmpty then none
  else
    let ds := comps.map Comparison.difference
    let acc := accuracy_of ds
    let std := std_dev_of ds
    let cons := consistency_of ds
    some
      { overall_proficiency :=
          match acc, cons with
          | some a, some c => some (round1R (0.6 * (perf : ℝ) + 0.2 * (a : ℝ) + 0.2 * c))
          | _, _ => none,
        performance_score := roundTo 1 perf,
        accuracy_score := acc.map (roundTo 1),
        consistency_score := cons.map round1R,
        differences := ds,
        std_dev := std }

structure CompSummary where
  by_category : List Comparison
  average_difference : NQ
  accurate_count : ℕ
  overestimate_count : ℕ
  underestimate_count : ℕ
deriving Repr, DecidableEq

structure UserAnalysis where
  ts_points : ℤ
  ts_possible : ℤ
  ts_percentage : ℚ
  mc_scores : List McScore
  mc_total_points : ℤ
  mc_total_possible : ℤ
  sa_scores : List SelfScore
  sa_average : NQ
  comparison : CompSummary
  proficiency : Option Proficiency

/-- `abs(difference) < 0.1`, false on NaN. -/
def is_accurate (d : NQ) : Bool :=
  match d with
  | some q => decide (|q| < 1/10)
  | none => false

/-- `difference < -0.1`, false on NaN. -/
def is_overestimate (d : NQ) : Bool :=
  match d with
  | some q => decide (q < -(1/10))
  | none => false

/-- `difference > 0.1`, false on NaN. -/
def is_underestimate (d : NQ) : Bool :=
  match d with
  | some q => decide (1/10 < q)
  | none => false

/-- The category loop of `analyze_user_performance`.  A category that is in
the global self-assessed set and has positive possible points reads the
user's self-assessment record: subscripting a `None` record raises
`TypeError`; a missing `normalized_self_assessment` key raises `KeyError`. -/
def cat_loop (saCats : List String) (maxScore : ℚ) (saRec : Option SelfAssessment) :
    List (String × CatScore) →
    Except String (List McScore × List SelfScore × List Comparison)
  | [] => .ok ([], [], [])
  | (c, s) :: rest =>
    let mcE : List McScore :=
      if 0 < s.points_possible then
        [{ category := c, points := s.points_earned, possible := s.points_possible,
           percentage := roundTo 1 ((s.points_earned : ℚ) / (s.points_possible : ℚ) * 100) }]
      else []
    if c ∈ saCats ∧ 0 < s.points_possible then
      match saRec with
      | none => .error "TypeError: NoneType object is not subscriptable"
      | some sa =>
        let selfScore := (alookup sa.scores c).getD (some 0)
        match s.normalized_self_assessment with
        | none => .error "KeyError: normalized_self_assessment"
        | some sn =>
          (cat_loop saCats maxScore saRec rest).map (fun t =>
            (mcE ++ t.1,
             { category := c, score := selfScore, out_of := maxScore } :: t.2.1,
             { category := c, quiz_normalized := s.normalized_score,
               self_normalized := sn,
               difference := sn.map (fun x => s.normalized_score - x) } :: t.2.2))
    else
      (cat_loop saCats maxScore saRec rest).map (fun t => (mcE ++ t.1, t.2.1, t.2.2))

/-- The body of `analyze_user_performance` for one user. -/
noncomputable def analyze_user (saCats : List String) (maxScore : ℚ) (u : UserData) :
    Except String UserAnalysis := do
  let (mcs, ss, cs) ← cat_loop saCats maxScore u.self_assessment u.score_by_category
  let totalPct : ℚ :=
    if 0 < u.total_score.points_possible then
      roundTo 1 ((u.total_score.points_earned : ℚ) / (u.total_score.points_possible : ℚ) * 100)
    else 0
  return {
      ts_points := u.total_score.points_earned,
      ts_possible := u.total_score.points_possible,
      ts_percentage := totalPct,
      mc_scores := mcs,
      mc_total_points := (mcs.map McScore.points).sum,
      mc_total_possible := (mcs.map McScore.possible).sum,
      sa_scores := ss,
      sa_average :=
        if ss.isEmpty then some 0
        else (nsum (ss.map SelfScore.score)).map (fun t => roundTo 1 (t / ss.length)),
      comparison :=
        { by_category := cs,
          average_difference :=
            if cs.isEmpty then some 0
            else (nsum (cs.map Comparison.difference)).map (fun t => roundTo 3 (t / cs.length)),
          accurate_count := cs.countP (fun c => is_accurate c.difference),
          overestimate_count := cs.countP (fun c => is_overestimate c.difference),
          underestimate_count := cs.countP (fun c => is_underestimate c.difference) },
      proficiency := calculate_proficiency_score totalPct cs }

/-- `PerformanceAnalyzer.analyze_user_performance` over the whole model. -/
noncomputable def analyze_user_performance (m : Model) :
    Except String (List (String × UserAnalysis)) :=
  m.users.mapM (fun p =>
    (analyze_user m.metadata.sa_categories m.metadata.sa_max_score p.2).map
      (fun ua => (p.1, ua)))

/-! ## PerformanceAnalyzer.get_overall_statistics -/

structure UserCompStat where
  average_difference : NQ
  accurate_ratio : ℚ
  overestimate_ratio : ℚ
  underestimate_ratio : ℚ
deriving Repr, DecidableEq

structure OverallStats where
  qp_total_points : ℤ
  qp_total_possible : ℤ
  qp_average_percentage : ℚ
  sa_average_score : NQ
  sa_total_users : ℕ
  sa_min_average : NQ
  sa_max_average : NQ
  comp_total_users : ℕ
  comp_average_difference : NQ
  comp_accurate_ratio : ℚ
  comp_overestimate_ratio : ℚ
  comp_underestimate_ratio : ℚ
deriving Repr, DecidableEq

def comp_stat_of (ua : UserAnalysis) : UserCompStat :=
  { average_difference := ua.comparison.average_difference,
    accurate_ratio := (ua.comparison.accurate_count : ℚ) / ua.comparison.by_category.length,
    overestimate_ratio :=
      (ua.comparison.overestimate_count : ℚ) / ua.comparison.by_category.length,
    underestimate_ratio :=
      (ua.comparison.underestimate_count : ℚ) / ua.comparison.by_category.length }

/-- `PerformanceAnalyzer.get_overall_statistics`.  The per-user ratio sums
are divided by the number of users that have comparison data with no
guard: with zero such users the Python code raises `ZeroDivisionError`
before returning anything. -/
def get_overall_statistics (analysis : List (String × UserAnalysis)) :
    Except String OverallStats :=
  let all_scores := (analysis.map (fun p => p.2.mc_scores)).flatten
  let sa_avgs := (analysis.filter (fun p => !p.2.sa_scores.isEmpty)).map
      (fun p => p.2.sa_average)
  let comp_stats := (analysis.filter (fun p => !p.2.comparison.by_category.isEmpty)).map
      (fun p => comp_stat_of p.2)
  if comp_stats.isEmpty then .error "ZeroDivisionError: division by zero"
  else
    let n : ℚ := comp_stats.length
    .ok
      { qp_total_points := (all_scores.map McScore.points).sum,
        qp_total_possible := (all_scores.map McScore.possible).sum,
        qp_average_percentage :=
          if all_scores.isEmpty then 0
          else roundTo 1 ((all_scores.map McScore.percentage).sum / all_scores.length),
        sa_average_score :=
          if sa_avgs.isEmpty then some 0
          else (nsum sa_avgs).map (fun t => roundTo 1 (t / sa_avgs.length)),
        sa_total_users := sa_avgs.length,
        sa_min_average :=
          if sa_avgs.isEmpty then some 0 else (listMin sa_avgs).map (roundTo 1),
        sa_max_average :=
          if sa_avgs.isEmpty then some 0 else (listMax sa_avgs).map (roundTo 1),
        comp_total_users := comp_stats.length,
        comp_average_difference :=
          (nsum (comp_stats.map UserCompStat.average_difference)).map
            (fun t => roundTo 3 (t / n)),
        comp_accurate_ratio :=
          roundTo 3 (((comp_stats.map UserCompStat.accurate_ratio).sum) / n),
        comp_overestimate_ratio :=
          roundTo 3 (((comp_stats.map UserCompStat.overestimate_ratio).sum) / n),
        comp_underestimate_ratio :=
          roundTo 3 (((comp_stats.map UserCompStat.underestimate_ratio).sum) / n) }

/-! ## Concrete fixtures used by counterexamples and witnesses -/

/-- One question `q1` in category `X`, correct answer `a`, worth 1. -/
def qrows1 : List QRow :=
  [{ question := "q1", category := "X", answer := "a", value := 1 }]

/-- A single user `A` answering `q1` correctly; no self-assessment anywhere. -/
def rfile1 : RespFile :=
  { cols := ["date_time", "user_id", "q1"],
    rows := [{ user_id := "A", date_time := "t1", cells := [("q1", some "a")] }] }

/-- Two users `A` and `B`, both answering `q1` correctly. -/
def rfile2 : RespFile :=
  { cols := ["date_time", "user_id", "q1"],
    rows := [{ user_id := "A", date_time := "t1", cells := [("q1", some "a")] },
             { user_id := "B", date_time := "t2", cells := [("q1", some "a")] }] }

/-- A self-assessment file rating category `X` for user `A` only. -/
def safile2 : SAFile :=
  { cols := ["date_time", "user_id", "X"],
    rows := [{ user_id := "A", date_time := "t3", cells := [("X", some 10)] }] }

/-- A self-assessment file with an `X` column but an empty (NaN) cell in
user `A`'s row. -/
def safile4 : SAFile :=
  { cols := ["date_time", "user_id", "X"],
    rows := [{ user_id := "A", date_time := "t3", cells := [] }] }

/-- Last row of a response file mentioning `uid` (file order). -/
def lastRowFor (rows : List RRow) (uid : String) : Option RRow :=
  rows.foldl (fun acc r => if r.user_id = uid then some r else acc) none

/-- Last row of a self-assessment file mentioning `uid`. -/
def lastSARowFor (rows : List SARow) (uid : String) : Option SARow :=
  rows.foldl (fun acc r => if r.user_id = uid then some r else acc) none

/-- The question that ends up graded for `qid` on any row: the last question
with this id whose text is a column of the response file. -/
def lastWrite (qs : List (String × Question)) (cols : List String) (qid : String) :
    Option Question :=
  qs.foldl (fun acc p => if p.1 = qid ∧ p.2.text ∈ cols then some p.2 else acc) none

/-- Decidable coverage condition: every user with positive quiz points in a
globally self-assessed category has a self-assessment record holding a
non-NaN value for that category. -/
def covOK (qs : List (String × Question)) (users : List (String × LoadedUser)) : Bool :=
  users.all (fun p => (sa_categories_of users).all (fun c =>
    !(decide (0 < points_possible_in qs p.2 c)) ||
      (match p.2.self_assessment with
       | some sa =>
         (match alookup sa.scores c with
          | some (some _) => true
          | _ => false)
       | none => false)))

/-- First-of-two options: keeps `x` when present, else `y`. -/
def orE {α : Type} (x y : Option α) : Option α :=
  match x with
  | some a => some a
  | none => y

/-! ## Spec-side formulas for the proficiency score (claim C6's wording) -/

/-- Spec wording: `accuracy_score = (1 - mean |difference|) * 100`. -/
def spec_accuracy (ds : List ℚ) : ℚ :=
  (1 - (ds.map abs).sum / ds.length) * 100

/-- Spec wording: population standard deviation of the differences,
defined as 0 when there is a single difference. -/
noncomputable def spec_std_dev (ds : List ℚ) : ℝ :=
  if ds.length ≤ 1 then 0 else Real.sqrt (popVariance ds)

/-- Spec wording: `consistency_score = (1 - min(std_dev, 1)) * 100`. -/
noncomputable def spec_consistency (ds : List ℚ) : ℝ :=
  (1 - min (spec_std_dev ds) 1) * 100

/-- Spec wording: `0.60*quiz_percentage + 0.20*accuracy_score +
0.20*consistency_score`, rounded to 1 decimal. -/
noncomputable def spec_overall (perf : ℚ) (ds : List ℚ) : ℝ :=
  round1R (0.6 * (perf : ℝ) + 0.2 * ((spec_accuracy ds : ℚ) : ℝ) + 0.2 * spec_consistency ds)

/-! ## Derived observation helpers and fixtures -/

instance : Inhabited Metadata :=
  ⟨{ total_questions := 0, total_users := 0, total_points_possible := 0,
     sa_categories := [], sa_max_score := 0 }⟩

instance : Inhabited Model :=
  ⟨{ questions := [], users := [], metadata := default }⟩

instance : Inhabited CompSummary :=
  ⟨{ by_category := [], average_difference := some 0, accurate_count := 0,
     overestimate_count := 0, underestimate_count := 0 }⟩

instance : Inhabited UserAnalysis :=
  ⟨{ ts_points := 0, ts_possible := 0, ts_percentage := 0, mc_scores := [],
     mc_total_points := 0, mc_total_possible := 0, sa_scores := [],
     sa_average := some 0, comparison := default, proficiency := none }⟩

/-- The user's `points_possible` for a category, read off the model
(0 when the category is absent from the user's breakdown). -/
def possibleOfD (m : Model) (uid c : String) : ℤ :=
  ((alookup m.users uid).map (fun ud =>
    ((alookup ud.score_by_category c).map CatScore.points_possible).getD 0)).getD 0

/-- The model loaded from the two-user files with partial self-assessment. -/
noncomputable def m2 : Model :=
  (load_all_data qrows1 rfile2 (some safile2)).toOption.getD default

/-- A per-user analysis with an empty comparison section (the shape every
user has when no self-assessment data exists). -/
def ua0 : UserAnalysis :=
  { ts_points := 1, ts_possible := 1, ts_percentage := 100,
    mc_scores := [{ category := "X", points := 1, possible := 1, percentage := 100 }],
    mc_total_points := 1, mc_total_possible := 1,
    sa_scores := [], sa_average := some 0,
    comparison :=
      { by_category := [], average_difference := some 0,
        accurate_count := 0, overestimate_count := 0, underestimate_count := 0 },
    proficiency := none }

/-- A user whose only comparison difference is exactly 0.1. -/
def u5 : UserData :=
  { responses := [], self_assessment := some { timestamp := "t", scores := [("X", some 5)] },
    total_score := { points_earned := 3, points_possible := 5, normalized_score := 3/5 },
    score_by_category :=
      [("X", { points_earned := 3, points_possible := 5, normalized_score := 3/5,
               normalized_self_assessment := some (some (1/2)) })] }

/-- The analysis of `u5` (the loop cannot fail on it). -/
noncomputable def ua5 : UserAnalysis :=
  (analyze_user ["X"] 10 u5).toOption.getD default

/-- A single comparison entry with difference 0. -/
def cs6 : List Comparison :=
  [{ category := "X", quiz_normalized := 1, self_normalized := some 1, difference := some 0 }]

/-- The proficiency record computed for `cs6` at 80% quiz performance. -/
noncomputable def p6 : Proficiency :=
  (calculate_proficiency_score 80 cs6).getD default

/-- The model loaded in Scenario C (single user, no self-assessment). -/
def m1c : Model :=
  (load_all_data qrows1 rfile1 none).toOption.getD default

/-- The model loaded with the empty-cell self-assessment file. -/
def m4c : Model :=
  (load_all_data qrows1 rfile1 (some safile4)).toOption.getD default

/-- Users loaded from the single-user response file. -/
def us1c : List (String × LoadedUser) :=
  (load_responses (load_questions qrows1) rfile1).toOption.getD []

/-- Scenario D: the correct answer is `A` (upper case). -/
def qrowsD : List QRow :=
  [{ question := "q1", category := "X", answer := "A", value := 1 }]

/-- Scenario D: the user answers `a` (lower case). -/
def rfileD : RespFile :=
  { cols := ["date_time", "user_id", "q1"],
    rows := [{ user_id := "A", date_time := "t1", cells := [("q1", some "a")] }] }

/-- The model loaded in Scenario D. -/
def mDc : Model :=
  (load_all_data qrowsD rfileD none).toOption.getD default

/-- A question bank for the witness of the amended C3 claim. -/
def qs3 : List (String × Question) :=
  [("Q1", { text := "q1", category := "X", correct_answer := "a", worth := 1 })]

/-- A single fully self-assessed user for the witness of the amended C3
claim. -/
def users3 : List (String × LoadedUser) :=
  [("A",
    { responses :=
        [("Q1", { timestamp := "t1", answer := some "a", is_correct := true,
                  points_earned := 1, worth := 1 })],
      self_assessment := some { timestamp := "t2", scores := [("X", some 10)] } })]

/-- A response file in which the same user appears on two rows, first with
a wrong answer, then with the right one. -/
def rfileDup : RespFile :=
  { cols := ["date_time", "user_id", "q1"],
    rows := [{ user_id := "A", date_time := "t1", cells := [("q1", some "x")] },
             { user_id := "A", date_time := "t2", cells := [("q1", some "a")] }] }

/-- A self-assessment file in which the same user appears on two rows. -/
def safDup : SAFile :=
  { cols := ["date_time", "user_id", "X"],
    rows := [{ user_id := "A", date_time := "t3", cells := [("X", some 4)] },
             { user_id := "A", date_time := "t4", cells := [("X", some 9)] }] }

/-- Users loaded from the duplicate-row response file. -/
def usc10 : List (String × LoadedUser) :=
  (load_responses (load_questions qrows1) rfileDup).toOption.getD []

/-- The same users after the duplicate-row self-assessment load. -/
def usc10p : List (String × LoadedUser) :=
  (load_self_assessment (quiz_categories qrows1) (some safDup) usc10).toOption.getD []

/-- The comparison entry the analyzer emits for a qualifying category of a
user whose self-assessment data is present. -/
def comp_of (p : String × CatScore) : Comparison :=
  { category := p.1, quiz_normalized := p.2.normalized_score,
    self_normalized := p.2.normalized_self_assessment.getD none,
    difference := (p.2.normalized_self_assessment.getD none).map
      (fun x => p.2.normalized_score - x) }

/-! ## Association-list lemmas -/

theorem orE_some {α : Type} (a : α) (y : Option α) : orE (some a) y = some a := rfl

theorem orE_none {α : Type} (y : Option α) : orE none y = y := rfl

theorem alookup_updateA {β : Type} (l : List (String × β)) (key k : String) (v : β) :
    alookup (updateA l key v) k = if k = key then some v else alookup l k := by
  induction l with
  | nil =>
    simp only [updateA, alookup]
    by_cases h : k = key
    · simp [h]
    · simp [h, Ne.symm h]
  | cons hd tl ih =>
    obtain ⟨k', w⟩ := hd
    simp only [updateA]
    split
    · next hk =>
      subst hk
      simp only [alookup]
      by_cases h : k = k'
      · simp [h]
      · simp [h, Ne.symm h]
    · next hk =>
      simp only [alookup, ih]
      by_cases h : k' = k
      · subst h
        simp [hk]
      · simp [h]

theorem keys_updateA {β : Type} (l : List (String × β)) (key : String) (v : β) :
    (updateA l key v).map Prod.fst =
      if key ∈ l.map Prod.fst then l.map Prod.fst else l.map Prod.fst ++ [key] := by
  induction l with
  | nil => simp [updateA]
  | cons hd tl ih =>
    obtain ⟨k', w⟩ := hd
    by_cases hk : k' = key
    · subst hk; simp [updateA]
    · simp only [updateA, if_neg hk, List.map_cons, ih]
      by_cases hmem : key ∈ tl.map Prod.fst
      · simp [hmem, Ne.symm hk]
      · simp [hmem, Ne.symm hk]

theorem mem_updateA {β : Type} {l : List (String × β)} {key : String} {v : β}
    {p : String × β} (h : p ∈ updateA l key v) : p ∈ l ∨ p = (key, v) := by
  induction l with
  | nil => simpa [updateA] using h
  | cons hd tl ih =>
    obtain ⟨k', w⟩ := hd
    by_cases hk : k' = key
    · subst hk
      rcases (by simpa [updateA] using h : p = (k', v) ∨ p ∈ tl) with h1 | h1
      · exact Or.inr h1
      · exact Or.inl (List.mem_cons_of_mem _ h1)
    · rcases (by simpa [updateA, hk] using h : p = (k', w) ∨ p ∈ updateA tl key v) with h1 | h1
      · exact Or.inl (by simp [h1])
      · rcases ih h1 with h2 | h2
        · exact Or.inl (List.mem_cons_of_mem _ h2)
        · exact Or.inr h2

theorem keys_updU (l : List (String × LoadedUser)) (uid : String)
    (f : LoadedUser → LoadedUser) : (updU l uid f).map Prod.fst = l.map Prod.fst := by
  induction l with
  | nil => simp [updU]
  | cons hd tl ih =>
    obtain ⟨k, u⟩ := hd
    by_cases hk : k = uid
    · subst hk; simp [updU]
    · simp [updU, hk, ih]

theorem alookup_updU (l : List (String × LoadedUser)) (uid k : String)
    (f : LoadedUser → LoadedUser) :
    alookup (updU l uid f) k =
      if k = uid then (alookup l uid).map f else alookup l k := by
  induction l with
  | nil => by_cases h : k = uid <;> simp [updU, alookup, h]
  | cons hd tl ih =>
    obtain ⟨k', u⟩ := hd
    simp only [updU]
    split
    · next hk =>
      subst hk
      simp only [alookup]
      by_cases h : k = k'
      · simp [h]
      · simp [h, Ne.symm h]
    · next hk =>
      simp only [alookup, ih]
      by_cases h : k' = k
      · subst h
        simp [hk]
      · simp [h, hk]

theorem mem_updU {l : List (String × LoadedUser)} {uid : String}
    {f : LoadedUser → LoadedUser} {p : String × LoadedUser} (h : p ∈ updU l uid f) :
    p ∈ l ∨ ∃ u, (p.1, u) ∈ l ∧ p.2 = f u := by
  induction l with
  | nil => simpa [updU] using h
  | cons hd tl ih =>
    obtain ⟨k, u⟩ := hd
    by_cases hk : k = uid
    · subst hk
      rcases (by simpa [updU] using h : p = (k, f u) ∨ p ∈ tl) with h1 | h1
      · exact Or.inr ⟨u, by simp [h1], by simp [h1]⟩
      · exact Or.inl (List.mem_cons_of_mem _ h1)
    · rcases (by simpa [updU, hk] using h : p = (k, u) ∨ p ∈ updU tl uid f) with h1 | h1
      · exact Or.inl (by simp [h1])
      · rcases ih h1 with h2 | h2
        · exact Or.inl (List.mem_cons_of_mem _ h2)
        · obtain ⟨w, hw, hpw⟩ := h2
          exact Or.inr ⟨w, List.mem_cons_of_mem _ hw, hpw⟩

theorem containsKey_iff_mem {β : Type} (l : List (String × β)) (k : String) :
    containsKey l k = true ↔ k ∈ l.map Prod.fst := by
  induction l with
  | nil => simp [containsKey, alookup]
  | cons hd tl ih =>
    obtain ⟨k', v⟩ := hd
    by_cases h : k' = k
    · subst h; simp [containsKey, alookup]
    · simp only [containsKey, alookup, if_neg h, List.map_cons, List.mem_cons]
      rw [containsKey] at ih
      simp [ih, Ne.symm h]

theorem alookup_mem {β : Type} {l : List (String × β)} {k : String} {v : β}
    (h : alookup l k = some v) : (k, v) ∈ l := by
  induction l with
  | nil => simp [alookup] at h
  | cons hd tl ih =>
    obtain ⟨k', w⟩ := hd
    simp only [alookup] at h
    split at h
    · next hk =>
      injection h with h
      subst hk; subst h
      exact List.mem_cons_self _ _
    · next hk => exact List.mem_cons_of_mem _ (ih h)

theorem alookup_append {β : Type} (l1 l2 : List (String × β)) (k : String) :
    alookup (l1 ++ l2) k =
      match alookup l1 k with
      | some v => some v
      | none => alookup l2 k := by
  induction l1 with
  | nil => simp [alookup]
  | cons hd tl ih =>
    obtain ⟨k', v⟩ := hd
    by_cases h : k' = k <;> simp [alookup, h, ih]

/-- A left fold that keeps the last element satisfying the condition:
the initial accumulator only matters when nothing matches. -/
theorem foldl_lastP {α β : Type} (c : β → Prop) [DecidablePred c] (g : β → α) :
    ∀ (l : List β) (acc : Option α),
      l.foldl (fun a b => if c b then some (g b) else a) acc =
        orE (l.foldl (fun a b => if c b then some (g b) else a) none) acc := by
  intro l
  induction l with
  | nil => intro acc; rfl
  | cons b l ih =>
    intro acc
    simp only [List.foldl_cons]
    rw [ih (if c b then some (g b) else acc), ih (if c b then some (g b) else none)]
    cases h : l.foldl (fun a b => if c b then some (g b) else a) none with
    | some x => rfl
    | none =>
      by_cases hb : c b <;> simp [hb, orE]

theorem mem_dedupAcc (acc l : List String) (c : String) :
    c ∈ dedupAcc acc l ↔ c ∈ acc ∨ c ∈ l := by
  induction l generalizing acc with
  | nil => simp [dedupAcc]
  | cons hd tl ih =>
    by_cases h : hd ∈ acc
    · rw [dedupAcc, if_pos h, ih]
      constructor
      · rintro (h1 | h1)
        · exact Or.inl h1
        · exact Or.inr (List.mem_cons_of_mem _ h1)
      · rintro (h1 | h1)
        · exact Or.inl h1
        · rcases List.mem_cons.1 h1 with h2 | h2
          · exact Or.inl (h2 ▸ h)
          · exact Or.inr h2
    · rw [dedupAcc, if_neg h, ih]
      simp only [List.mem_append, List.mem_singleton, List.mem_cons]
      tauto

/-! ## Response loading: lookup characterisation -/

/-- After writing one row over any prior responses, a question id maps to
the grade from this row whenever some question writes it. -/
theorem alookup_write_row (cols : List String) (row : RRow) (qid : String) :
    ∀ (qs : List (String × Question)) (rs : List (String × Response)),
      alookup (write_row qs cols row rs) qid =
        match lastWrite qs cols qid with
        | some q => some (make_response q row)
        | none => alookup rs qid := by
  intro qs
  induction qs with
  | nil => intro rs; rfl
  | cons p qs ih =>
    intro rs
    simp only [write_row, List.foldl_cons] at *
    rw [ih]
    simp only [lastWrite, List.foldl_cons]
    rw [foldl_lastP (fun p => p.1 = qid ∧ p.2.text ∈ cols) Prod.snd qs
      (if p.1 = qid ∧ p.2.text ∈ cols then some p.2 else none)]
    have hfold : qs.foldl
        (fun acc p => if p.1 = qid ∧ p.2.text ∈ cols then some p.2 else acc) none =
        lastWrite qs cols qid := rfl
    rw [hfold]
    cases h : lastWrite qs cols qid with
    | some q => rfl
    | none =>
      by_cases hc : p.2.text ∈ cols
      · by_cases hq : p.1 = qid
        · simp [hc, hq, alookup_updateA, orE]
        · simp [hc, hq, alookup_updateA, Ne.symm hq, orE]
      · simp [hc, orE]

/-- Entries of a written row come from the prior dict or from a question. -/
theorem mem_write_row (cols : List String) (row : RRow)
    {e : String × Response} :
    ∀ (qs : List (String × Question)) (rs : List (String × Response)),
      e ∈ write_row qs cols row rs →
      e ∈ rs ∨ ∃ q, (e.1, q) ∈ qs ∧ e.2 = make_response q row := by
  intro qs
  induction qs with
  | nil => intro rs h; exact Or.inl h
  | cons p qs ih =>
    intro rs h
    simp only [write_row, List.foldl_cons] at h
    rcases ih _ h with h1 | ⟨q, hq, he⟩
    · by_cases hc : p.2.text ∈ cols
      · simp only [if_pos hc] at h1
        rcases mem_updateA h1 with h2 | h2
        · exact Or.inl h2
        · refine Or.inr ⟨p.2, ?_, ?_⟩
          · rw [show e.1 = p.1 from congrArg Prod.fst h2]
            exact List.mem_cons_self _ _
          · exact congrArg Prod.snd h2
      · simp only [if_neg hc] at h1
        exact Or.inl h1
    · exact Or.inr ⟨q, List.mem_cons_of_mem _ hq, he⟩

theorem keys_process_row (qs : List (String × Question)) (cols : List String)
    (users : List (String × LoadedUser)) (r : RRow) :
    (process_row qs cols users r).map Prod.fst =
      if containsKey users r.user_id then users.map Prod.fst
      else users.map Prod.fst ++ [r.user_id] := by
  unfold process_row
  by_cases h : containsKey users r.user_id <;> simp [h, keys_updU]

theorem process_row_lookup_ne (qs : List (String × Question)) (cols : List String)
    (users : List (String × LoadedUser)) (r : RRow) (uid : String)
    (h : uid ≠ r.user_id) :
    alookup (process_row qs cols users r) uid = alookup users uid := by
  unfold process_row
  by_cases hc : containsKey users r.user_id
  · simp [hc, alookup_updU, h]
  · simp only [hc, if_false, Bool.false_eq_true, alookup_updU, if_neg h, alookup_append]
    cases halo : alookup users uid with
    | some v => rfl
    | none => simp [alookup, Ne.symm h]

theorem process_row_lookup_self (qs : List (String × Question)) (cols : List String)
    (users : List (String × LoadedUser)) (r : RRow) :
    alookup (process_row qs cols users r) r.user_id = some
      { responses :=
          write_row qs cols r ((alookup users r.user_id).elim [] LoadedUser.responses),
        self_assessment :=
          (alookup users r.user_id).elim none LoadedUser.self_assessment } := by
  unfold process_row
  by_cases hc : containsKey users r.user_id
  · obtain ⟨w, hw⟩ := Option.isSome_iff_exists.1 hc
    simp [hc, alookup_updU, hw]
  · have hw : alookup users r.user_id = none :=
      Option.not_isSome_iff_eq_none.1 (by simpa [containsKey] using hc)
    simp [hc, alookup_updU, alookup_append, hw, alookup]

theorem process_row_sa_elim (qs : List (String × Question)) (cols : List String)
    (users : List (String × LoadedUser)) (r : RRow) (uid : String) :
    ((alookup (process_row qs cols users r) uid).elim none LoadedUser.self_assessment) =
      ((alookup users uid).elim none LoadedUser.self_assessment) := by
  by_cases h : uid = r.user_id
  · subst h
    rw [process_row_lookup_self]
    cases alookup users r.user_id <;> rfl
  · rw [process_row_lookup_ne qs cols users r uid h]

theorem supp_process_row (qs : List (String × Question)) (cols : List String)
    (users : List (String × LoadedUser)) (r : RRow)
    (hsupp : ∀ uid u qid, alookup users uid = some u →
      lastWrite qs cols qid = none → alookup u.responses qid = none) :
    ∀ uid u qid, alookup (process_row qs cols users r) uid = some u →
      lastWrite qs cols qid = none → alookup u.responses qid = none := by
  intro uid u qid hu hlw
  by_cases h : uid = r.user_id
  · subst h
    rw [process_row_lookup_self] at hu
    injection hu with hu
    subst hu
    simp only [alookup_write_row, hlw]
    cases halo : alookup users r.user_id with
    | some w => exact hsupp _ _ _ halo hlw
    | none => rfl
  · rw [process_row_lookup_ne qs cols users r uid h] at hu
    exact hsupp _ _ _ hu hlw

/-- Characterisation of the response-loading fold: a user appearing in the
file ends up (extensionally) with exactly the responses derived from the
last row mentioning them; a user not in the file is untouched. -/
theorem resp_fold_ext (qs : List (String × Question)) (cols : List String) :
    ∀ (rows : List RRow) (users : List (String × LoadedUser))
      (hsupp : ∀ uid u qid, alookup users uid = some u →
        lastWrite qs cols qid = none → alookup u.responses qid = none) (uid : String),
      match lastRowFor rows uid with
      | none => alookup (rows.foldl (process_row qs cols) users) uid = alookup users uid
      | some row => ∃ u, alookup (rows.foldl (process_row qs cols) users) uid = some u ∧
          u.self_assessment = ((alookup users uid).elim none LoadedUser.self_assessment) ∧
          ∀ qid, alookup u.responses qid = alookup (row_responses qs cols row) qid := by
  intro rows
  induction rows with
  | nil =>
    intro users hsupp uid
    exact rfl
  | cons r rest ih =>
    intro users hsupp uid
    have hsupp' := supp_process_row qs cols users r hsupp
    have IH := ih (process_row qs cols users r) hsupp' uid
    have hlr : lastRowFor (r :: rest) uid =
        orE (lastRowFor rest uid) (if r.user_id = uid then some r else none) := by
      simp only [lastRowFor, List.foldl_cons]
      have h0 := foldl_lastP (fun rr : RRow => rr.user_id = uid) (fun rr => rr) rest
        (if r.user_id = uid then some r else none)
      simpa using h0
    rw [hlr]
    cases h : lastRowFor rest uid with
    | some row =>
      rw [h] at IH
      rw [orE_some]
      obtain ⟨u, hu, hsa, hresp⟩ := IH
      refine ⟨u, by simpa [List.foldl_cons] using hu, ?_, hresp⟩
      rw [hsa, process_row_sa_elim]
    | none =>
      rw [h] at IH
      rw [orE_none]
      by_cases he : r.user_id = uid
      · subst he
        simp only [if_pos rfl]
        refine ⟨_, by simpa [List.foldl_cons] using IH.trans (process_row_lookup_self qs cols users r), ?_, ?_⟩
        · rfl
        · intro qid
          simp only [alookup_write_row, row_responses]
          cases hlw : lastWrite qs cols qid with
          | some q => rfl
          | none =>
            cases halo : alookup users r.user_id with
            | some w => simpa [halo] using hsupp _ _ qid halo hlw
            | none => simp [halo, alookup]
      · simp only [if_neg he]
        simpa [List.foldl_cons] using
          IH.trans (process_row_lookup_ne qs cols users r uid (fun hh => he hh.symm))

/-- Loading responses never introduces a duplicate user record. -/
theorem nodup_keys_fold (qs : List (String × Question)) (cols : List String) :
    ∀ (rows : List RRow) (users : List (String × LoadedUser)),
      (users.map Prod.fst).Nodup →
      ((rows.foldl (process_row qs cols) users).map Prod.fst).Nodup := by
  intro rows
  induction rows with
  | nil => intro users h; exact h
  | cons r rest ih =>
    intro users h
    simp only [List.foldl_cons]
    refine ih _ ?_
    rw [keys_process_row]
    by_cases hc : containsKey users r.user_id
    · simpa [hc] using h
    · simp only [hc, if_false, Bool.false_eq_true]
      rw [List.nodup_append]
      exact ⟨h, List.nodup_singleton _, fun a ha hmem =>
        hc ((containsKey_iff_mem users r.user_id).2
          (by rwa [List.mem_singleton.1 hmem] at ha))⟩

/-- Every stored response entry was produced by grading some question of
the bank against some row. -/
theorem resp_entries_fold (qs : List (String × Question)) (cols : List String) :
    ∀ (rows : List RRow) (users : List (String × LoadedUser)),
      (∀ p ∈ users, ∀ e ∈ (Prod.snd (α := String) p).responses,
        ∃ q row, (e.1, q) ∈ qs ∧ e.2 = make_response q row) →
      ∀ p ∈ rows.foldl (process_row qs cols) users, ∀ e ∈ (Prod.snd (α := String) p).responses,
        ∃ q row, (e.1, q) ∈ qs ∧ e.2 = make_response q row := by
  intro rows
  induction rows with
  | nil => intro users h; exact h
  | cons r rest ih =>
    intro users h
    simp only [List.foldl_cons]
    refine ih _ ?_
    intro p hp e he
    unfold process_row at hp
    rcases mem_updU hp with h1 | ⟨u, hu, hpu⟩
    · by_cases hc : containsKey users r.user_id
      · exact h p (by simpa [hc] using h1) e he
      · rcases (by simpa [hc] using h1 :
            p ∈ users ∨ p = (r.user_id, { responses := [], self_assessment := none })) with
          h2 | h2
        · exact h p h2 e he
        · rw [h2] at he
          simp at he
    · rw [hpu] at he
      rcases mem_write_row cols r qs _ he with h2 | ⟨q, hq, hqe⟩
      · by_cases hc : containsKey users r.user_id
        · exact h (p.1, u) (by simpa [hc] using hu) e h2
        · rcases (by simpa [hc] using hu :
              (p.1, u) ∈ users ∨
                p.1 = r.user_id ∧ u = { responses := [], self_assessment := none }) with
            h3 | ⟨h3a, h3b⟩
          · exact h (p.1, u) h3 e h2
          · rw [h3b] at h2
            simp at h2
      · exact ⟨q, r, hq, hqe⟩

/-- Response loading leaves every user without a self-assessment record. -/
theorem resp_sa_none_fold (qs : List (String × Question)) (cols : List String) :
    ∀ (rows : List RRow) (users : List (String × LoadedUser)),
      (∀ p ∈ users, (Prod.snd (α := String) p).self_assessment = none) →
      ∀ p ∈ rows.foldl (process_row qs cols) users,
        (Prod.snd (α := String) p).self_assessment = none := by
  intro rows
  induction rows with
  | nil => intro users h; exact h
  | cons r rest ih =>
    intro users h
    simp only [List.foldl_cons]
    refine ih _ ?_
    intro p hp
    unfold process_row at hp
    rcases mem_updU hp with h1 | ⟨u, hu, hpu⟩
    · by_cases hc : containsKey users r.user_id
      · exact h p (by simpa [hc] using h1)
      · rcases (by simpa [hc] using h1 :
            p ∈ users ∨ p = (r.user_id, { responses := [], self_assessment := none })) with
          h2 | h2
        · exact h p h2
        · rw [h2]
    · rw [hpu]
      by_cases hc : containsKey users r.user_id
      · exact h (p.1, u) (by simpa [hc] using hu)
      · rcases (by simpa [hc] using hu :
            (p.1, u) ∈ users ∨
              p.1 = r.user_id ∧ u = { responses := [], self_assessment := none }) with
          h3 | ⟨h3a, h3b⟩
        · exact h (p.1, u) h3
        · rw [h3b]

/-! ## Self-assessment loading: lookup characterisation -/

theorem keys_process_sa_row (cats cols : List String)
    (users : List (String × LoadedUser)) (r : SARow) :
    (process_sa_row cats cols users r).map Prod.fst = users.map Prod.fst := by
  unfold process_sa_row
  by_cases hc : containsKey users r.user_id <;> simp [hc, keys_updU]

theorem sa_row_lookup (cats cols : List String) (users : List (String × LoadedUser))
    (r : SARow) (uid : String) :
    alookup (process_sa_row cats cols users r) uid =
      if r.user_id = uid then
        (alookup users uid).map
          (fun u => { u with self_assessment := some (make_sa_record cats cols r) })
      else alookup users uid := by
  unfold process_sa_row
  by_cases h : r.user_id = uid
  · subst h
    by_cases hc : containsKey users r.user_id
    · simp [hc, alookup_updU]
    · have hw : alookup users r.user_id = none :=
        Option.not_isSome_iff_eq_none.1 (by simpa [containsKey] using hc)
      simp [hc, hw]
  · by_cases hc : containsKey users r.user_id
    · simp [hc, alookup_updU, h, Ne.symm h]
    · simp [hc, h]

/-- The self-assessment fold: a known user's record is wholly replaced by
the last row mentioning them; unknown rows are dropped. -/
theorem sa_fold_lookup (cats cols : List String) :
    ∀ (rows : List SARow) (users : List (String × LoadedUser)) (uid : String),
      alookup (rows.foldl (process_sa_row cats cols) users) uid =
        (alookup users uid).map (fun u =>
          match lastSARowFor rows uid with
          | some row => { u with self_assessment := some (make_sa_record cats cols row) }
          | none => u) := by
  intro rows
  induction rows with
  | nil =>
    intro users uid
    simp only [List.foldl_nil]
    cases halo : alookup users uid <;> simp [halo, lastSARowFor]
  | cons r rest ih =>
    intro users uid
    simp only [List.foldl_cons]
    rw [ih (process_sa_row cats cols users r) uid, sa_row_lookup]
    have hlr : lastSARowFor (r :: rest) uid =
        orE (lastSARowFor rest uid) (if r.user_id = uid then some r else none) := by
      simp only [lastSARowFor, List.foldl_cons]
      have h0 := foldl_lastP (fun rr : SARow => rr.user_id = uid) (fun rr => rr) rest
        (if r.user_id = uid then some r else none)
      simpa using h0
    rw [hlr]
    cases h : lastSARowFor rest uid with
    | some row =>
      rw [orE_some]
      by_cases he : r.user_id = uid
      · simp only [if_pos he]
        try (cases alookup users uid <;> rfl)
      · simp only [if_neg he]
        try (cases alookup users uid <;> rfl)
    | none =>
      rw [orE_none]
      by_cases he : r.user_id = uid
      · simp only [if_pos he]
        try (cases alookup users uid <;> rfl)
      · simp only [if_neg he]
        try (cases alookup users uid <;> rfl)

/-- Self-assessment loading changes no user's responses and drops no user. -/
theorem sa_fold_preserves (cats cols : List String) :
    ∀ (rows : List SARow) (users : List (String × LoadedUser)),
      ∀ p ∈ rows.foldl (process_sa_row cats cols) users,
        ∃ u, (p.1, u) ∈ users ∧ (Prod.snd (α := String) p).responses = u.responses := by
  intro rows
  induction rows with
  | nil =>
    intro users p hp
    exact ⟨p.2, hp, rfl⟩
  | cons r rest ih =>
    intro users p hp
    simp only [List.foldl_cons] at hp
    obtain ⟨u, hu, hresp⟩ := ih (process_sa_row cats cols users r) p hp
    unfold process_sa_row at hu
    by_cases hc : containsKey users r.user_id
    · rcases mem_updU (by simpa [hc] using hu) with h1 | ⟨w, hw, huw⟩
      · exact ⟨u, h1, hresp⟩
      · refine ⟨w, hw, ?_⟩
        have h5 := congrArg LoadedUser.responses huw
        exact hresp.trans h5
    · exact ⟨u, by simpa [hc] using hu, hresp⟩

/-! ## Question-bank and NaN-arithmetic lemmas -/

theorem mem_load_questions_from :
    ∀ (l : List QRow) (n : ℕ) (p : String × Question), p ∈ load_questions_from n l →
      ∃ r ∈ l, Prod.snd p =
        { text := r.question, category := r.category,
          correct_answer := r.answer, worth := r.value } := by
  intro l
  induction l with
  | nil => intro n p hp; simp [load_questions_from] at hp
  | cons r rest ih =>
    intro n p hp
    rcases List.mem_cons.1 hp with h1 | h1
    · exact ⟨r, List.mem_cons_self _ _, congrArg Prod.snd h1⟩
    · obtain ⟨r', hr', he⟩ := ih (n + 1) p h1
      exact ⟨r', List.mem_cons_of_mem _ hr', he⟩

theorem seqOpt_length : ∀ {l : List NQ} {l' : List ℚ}, seqOpt l = some l' →
    l'.length = l.length := by
  intro l
  induction l with
  | nil =>
    intro l' h
    simp only [seqOpt, Option.some.injEq] at h
    subst h; rfl
  | cons x rest ih =>
    intro l' h
    cases x with
    | none => simp [seqOpt] at h
    | some v =>
      simp only [seqOpt] at h
      cases hr : seqOpt rest with
      | none => rw [hr] at h; simp at h
      | some lr =>
        rw [hr] at h
        simp only [Option.map_some', Option.some.injEq] at h
        subst h
        simp [ih hr]

theorem seqOpt_map (f : ℚ → ℚ) : ∀ {l : List NQ} {l' : List ℚ}, seqOpt l = some l' →
    seqOpt (l.map (Option.map f)) = some (l'.map f) := by
  intro l
  induction l with
  | nil =>
    intro l' h
    simp only [seqOpt, Option.some.injEq] at h
    subst h; rfl
  | cons x rest ih =>
    intro l' h
    cases x with
    | none => simp [seqOpt] at h
    | some v =>
      simp only [seqOpt] at h
      cases hr : seqOpt rest with
      | none => rw [hr] at h; simp at h
      | some lr =>
        rw [hr] at h
        simp only [Option.map_some', Option.some.injEq] at h
        subst h
        simp only [List.map_cons, Option.map_some', seqOpt, ih hr, Option.map_some',
          List.map_cons]

theorem nsum_go : ∀ (l : List NQ) (l' : List ℚ), seqOpt l = some l' →
    ∀ a : ℚ, l.foldl nadd (some a) = some (a + l'.sum) := by
  intro l
  induction l with
  | nil =>
    intro l' h a
    simp only [seqOpt, Option.some.injEq] at h
    subst h
    simp
  | cons x rest ih =>
    intro l' h a
    cases x with
    | none => simp [seqOpt] at h
    | some v =>
      simp only [seqOpt] at h
      cases hr : seqOpt rest with
      | none => rw [hr] at h; simp at h
      | some lr =>
        rw [hr] at h
        simp only [Option.map_some', Option.some.injEq] at h
        subst h
        simp only [List.foldl_cons, nadd]
        rw [ih lr hr (a + v), List.sum_cons]
        rw [add_assoc]

theorem nsum_seqOpt {l : List NQ} {l' : List ℚ} (h : seqOpt l = some l') :
    nsum l = some l'.sum := by
  rw [nsum, nsum_go l l' h 0, zero_add]

/-! ## Category-loop characterisation -/

theorem cat_loop_ok (S : List String) (mx : ℚ) (saRec : Option SelfAssessment) :
    ∀ L : List (String × CatScore),
      (∀ p ∈ L, (Prod.fst (β := CatScore) p) ∈ S →
        0 < (Prod.snd (α := String) p).points_possible →
        saRec ≠ none ∧ (Prod.snd (α := String) p).normalized_self_assessment ≠ none) →
      ∃ ms ss cs, cat_loop S mx saRec L = .ok (ms, ss, cs) ∧
        cs = (L.filter (fun p => decide (p.1 ∈ S ∧ 0 < p.2.points_possible))).map comp_of := by
  intro L
  induction L with
  | nil => intro h; exact ⟨[], [], [], rfl, rfl⟩
  | cons p rest ih =>
    intro h
    obtain ⟨c, s⟩ := p
    obtain ⟨ms, ss, cs, hok, hcs⟩ := ih (fun p hp => h p (List.mem_cons_of_mem _ hp))
    by_cases hc : c ∈ S ∧ 0 < s.points_possible
    · obtain ⟨hne, hnsa⟩ := h (c, s) (List.mem_cons_self _ _) hc.1 hc.2
      obtain ⟨sa, hsa⟩ := Option.ne_none_iff_exists'.1 hne
      obtain ⟨sn, hsn⟩ := Option.ne_none_iff_exists'.1 hnsa
      have hsn2 : s.normalized_self_assessment = some sn := hsn
      rw [hsa] at hok
      refine ⟨(if 0 < s.points_possible then
          [{ category := c, points := s.points_earned, possible := s.points_possible,
             percentage := roundTo 1 ((s.points_earned : ℚ) / (s.points_possible : ℚ) * 100) }]
          else []) ++ ms,
        { category := c, score := (alookup sa.scores c).getD (some 0), out_of := mx } :: ss,
        { category := c, quiz_normalized := s.normalized_score, self_normalized := sn,
          difference := sn.map (fun x => s.normalized_score - x) } :: cs, ?_, ?_⟩
      · simp only [cat_loop, if_pos hc, hsa, hsn2, hok, Except.map]
      · simp only [List.filter_cons, decide_eq_true_eq, if_pos hc, List.map_cons, ← hcs]
        have hco : comp_of (c, s) =
            { category := c, quiz_normalized := s.normalized_score, self_normalized := sn,
              difference := sn.map (fun x => s.normalized_score - x) } := by
          simp [comp_of, hsn2]
        rw [hco]
    · refine ⟨(if 0 < s.points_possible then
          [{ category := c, points := s.points_earned, possible := s.points_possible,
             percentage := roundTo 1 ((s.points_earned : ℚ) / (s.points_possible : ℚ) * 100) }]
          else []) ++ ms, ss, cs, ?_, ?_⟩
      · simp only [cat_loop, if_neg hc, hok, Except.map]
      · simp only [List.filter_cons, decide_eq_true_eq, if_neg hc, ← hcs]

theorem analyze_user_ok (S : List String) (mx : ℚ) (u : UserData)
    {ms : List McScore} {ss : List SelfScore} {cs : List Comparison}
    (h : cat_loop S mx u.self_assessment u.score_by_category = .ok (ms, ss, cs)) :
    ∃ ua, analyze_user S mx u = .ok ua ∧ ua.comparison.by_category = cs ∧
      ua.comparison.accurate_count = cs.countP (fun c => is_accurate c.difference) ∧
      ua.comparison.overestimate_count = cs.countP (fun c => is_overestimate c.difference) ∧
      ua.comparison.underestimate_count = cs.countP (fun c => is_underestimate c.difference) ∧
      ua.sa_scores = ss ∧ ua.mc_scores = ms ∧
      ua.proficiency = calculate_proficiency_score ua.ts_percentage cs := by
  cases hA : analyze_user S mx u with
  | error e =>
    exfalso
    simp [analyze_user, h] at hA
  | ok ua =>
    have hrec := hA
    simp only [analyze_user, h] at hrec
    rw [show (Except.ok (ms, ss, cs) >>= fun x =>
        (match x with | (mcs, ss, cs) => _ : Except String UserAnalysis)) =
        _ from rfl] at hrec
    refine ⟨ua, rfl, ?_, ?_, ?_, ?_, ?_, ?_, ?_⟩ <;>
      (first
        | (injection hrec with hrec; rw [← hrec])
        | skip) <;> rfl

theorem mapM_ok_of {α β : Type} (f : α → Except String β) :
    ∀ l : List α, (∀ x ∈ l, ∃ y, f x = .ok y) → ∃ ys, l.mapM f = .ok ys := by
  intro l
  induction l with
  | nil => exact fun _ => ⟨[], rfl⟩
  | cons x rest ih =>
    intro h
    obtain ⟨y, hy⟩ := h x (List.mem_cons_self _ _)
    obtain ⟨ys, hys⟩ := ih (fun z hz => h z (List.mem_cons_of_mem _ hz))
    refine ⟨y :: ys, ?_⟩
    rw [List.mapM_cons, hy, hys]
    rfl

/-- With no user having comparison data, the per-user ratio sums are
divided by zero: `get_overall_statistics` faults. -/
theorem get_overall_statistics_fault (analysis : List (String × UserAnalysis))
    (h : ∀ p ∈ analysis, (Prod.snd p).comparison.by_category = ([] : List Comparison)) :
    get_overall_statistics analysis = .error "ZeroDivisionError: division by zero" := by
  have hf : analysis.filter (fun p => !p.2.comparison.by_category.isEmpty) = [] := by
    rw [List.filter_eq_nil_iff]
    intro p hp
    simp [h p hp]
  simp [get_overall_statistics, hf]

/-! ## Pipeline destructuring and auxiliary lemmas -/

theorem load_all_destruct (qrows : List QRow) (rf : RespFile) (saf : Option SAFile)
    (m : Model) (h : load_all_data qrows rf saf = .ok m) :
    ∃ us1 us2, load_responses (load_questions qrows) rf = .ok us1 ∧
      load_self_assessment (quiz_categories qrows) saf us1 = .ok us2 ∧
      m = combine_data (load_questions qrows) us2 := by
  unfold load_all_data at h
  cases h1 : load_responses (load_questions qrows) rf with
  | error e =>
    rw [h1] at h
    exact absurd h (by simp [Bind.bind, Except.bind])
  | ok us1 =>
    rw [h1] at h
    cases h2 : load_self_assessment (quiz_categories qrows) saf us1 with
    | error e =>
      rw [show (Except.ok us1 : Except String (List (String × LoadedUser))) >>=
          (fun users1 => load_self_assessment (quiz_categories qrows) saf users1 >>=
            fun users2 => pure (combine_data (load_questions qrows) users2)) =
          load_self_assessment (quiz_categories qrows) saf us1 >>=
            (fun users2 => pure (combine_data (load_questions qrows) users2)) from rfl,
        h2] at h
      exact absurd h (by simp [Bind.bind, Except.bind])
    | ok us2 =>
      refine ⟨us1, us2, rfl, h2, ?_⟩
      rw [show (Except.ok us1 : Except String (List (String × LoadedUser))) >>=
          (fun users1 => load_self_assessment (quiz_categories qrows) saf users1 >>=
            fun users2 => pure (combine_data (load_questions qrows) users2)) =
          load_self_assessment (quiz_categories qrows) saf us1 >>=
            (fun users2 => pure (combine_data (load_questions qrows) users2)) from rfl,
        h2] at h
      injection h with h
      exact h.symm

theorem load_responses_destruct (qs : List (String × Question)) (rf : RespFile)
    (us : List (String × LoadedUser)) (h : load_responses qs rf = .ok us) :
    us = rf.rows.foldl (process_row qs rf.cols) [] := by
  unfold load_responses at h
  split at h
  · injection h with h
    exact h.symm
  · exact absurd h (by simp)

theorem load_sa_destruct (cats : List String) (saf : SAFile)
    (us us' : List (String × LoadedUser))
    (h : load_self_assessment cats (some saf) us = .ok us') :
    us' = saf.rows.foldl (process_sa_row cats saf.cols) us := by
  simp only [load_self_assessment] at h
  split at h
  · injection h with h
    exact h.symm
  · exact absurd h (by simp)

theorem alookup_of_mem_nodup {β : Type} :
    ∀ {l : List (String × β)} {k : String} {v : β},
      (k, v) ∈ l → (l.map Prod.fst).Nodup → alookup l k = some v := by
  intro l
  induction l with
  | nil => intro k v hmem _; simp at hmem
  | cons hd tl ih =>
    intro k v hmem hnd
    obtain ⟨k', w⟩ := hd
    rcases List.mem_cons.1 hmem with h1 | h1
    · injection h1 with h1a h1b
      subst h1a; subst h1b
      simp [alookup]
    · by_cases hk : k' = k
      · exfalso
        subst hk
        have : k' ∈ tl.map Prod.fst := List.mem_map.2 ⟨(k', v), h1, rfl⟩
        exact (List.nodup_cons.1 (by simpa using hnd)).1 this
      · simp only [alookup, if_neg hk]
        exact ih h1 (List.nodup_cons.1 (by simpa using hnd)).2

theorem keys_sa_fold (cats cols : List String) :
    ∀ (rows : List SARow) (users : List (String × LoadedUser)),
      ((rows.foldl (process_sa_row cats cols) users).map Prod.fst) = users.map Prod.fst := by
  intro rows
  induction rows with
  | nil => intro users; rfl
  | cons r rest ih =>
    intro users
    simp only [List.foldl_cons]
    rw [ih, keys_process_sa_row]

theorem possible_pos_mem (qs : List (String × Question)) (u : LoadedUser) (c : String)
    (h : 0 < points_possible_in qs u c) : c ∈ user_categories qs u := by
  by_contra hne
  have hnil : cat_responses qs u c = [] := by
    rw [cat_responses, List.filter_eq_nil_iff]
    intro p hp
    simp only [decide_eq_true_eq]
    intro hc
    exact hne ((mem_dedupAcc [] _ c).2 (Or.inr
      (List.mem_map.2 ⟨p, hp, hc⟩)))
  rw [points_possible_in, hnil] at h
  simp at h

theorem make_response_earned_le (q : Question) (row : RRow) (h : 0 ≤ q.worth) :
    (make_response q row).points_earned ≤ (make_response q row).worth := by
  unfold make_response
  by_cases hc : decide ((alookup row.cells q.text).getD none = some q.correct_answer) = true <;>
    simp [hc, h]

theorem covOK_spec (qs : List (String × Question)) (users : List (String × LoadedUser))
    (h : covOK qs users = true) :
    ∀ p ∈ users, ∀ c ∈ sa_categories_of users,
      0 < points_possible_in qs (Prod.snd p) c →
      ∃ sa v, (Prod.snd p).self_assessment = some sa ∧
        alookup sa.scores c = some (some v) := by
  intro p hp c hcm hpos
  have h1 := (List.all_eq_true.1 h) p hp
  have h2 := (List.all_eq_true.1 h1) c hcm
  rw [Bool.or_eq_true] at h2
  rcases h2 with h2 | h2
  · simp [hpos] at h2
  · cases hsa : p.2.self_assessment with
    | none => simp only [hsa] at h2; simp at h2
    | some sa =>
      simp only [hsa] at h2
      cases hlk : alookup sa.scores c with
      | none => simp only [hlk] at h2; simp at h2
      | some w =>
        simp only [hlk] at h2
        cases w with
        | none => simp at h2
        | some v => exact ⟨sa, v, rfl, hlk⟩

/-! ## Claim theorems -/

/-- C1 (counterexample): with a normalized model in which no user has any
comparison data (self-assessment file missing), loading and the per-user
analysis succeed, but `get_overall_statistics` raises `ZeroDivisionError`
instead of returning a zero/empty comparison section. -/
theorem C1_counterexample :
    ((load_all_data qrows1 rfile1 none).bind analyze_user_performance).isOk = true ∧
    (((load_all_data qrows1 rfile1 none).bind analyze_user_performance).bind
      get_overall_statistics) = .error "ZeroDivisionError: division by zero" :=
  ⟨by with_unfolding_all rfl, by with_unfolding_all rfl⟩

/-- C1 (amended): whenever zero users have comparison data,
`get_overall_statistics` raises a division-by-zero fault (it divides the
per-user ratio sums by the number of users with comparison data without a
guard); no zero/empty comparison section is returned. -/
theorem C1_overall_statistics_zero_users_fault
    (analysis : List (String × UserAnalysis))
    (h : ∀ p ∈ analysis, (Prod.snd p).comparison.by_category = ([] : List Comparison)) :
    get_overall_statistics analysis = .error "ZeroDivisionError: division by zero" :=
  get_overall_statistics_fault analysis h

/-- Witness for the amended C1 at a concrete one-user analysis. -/
theorem C1_witness :
    get_overall_statistics [("A", ua0)] = .error "ZeroDivisionError: division by zero" :=
  C1_overall_statistics_zero_users_fault [("A", ua0)]
    (fun p hp => by rw [List.mem_singleton.1 hp]; rfl)

/-- C2 (code bug): on a model with two users who both answered a question
in category `X`, where only user `A` has self-assessment data, loading
succeeds but `analyze_user_performance` raises a `TypeError` subscripting
user `B`'s `None` self-assessment record, instead of analysing both users. -/
theorem C2_failing_input_eval :
    (load_all_data qrows1 rfile2 (some safile2)).isOk = true ∧
    ((load_all_data qrows1 rfile2 (some safile2)).bind analyze_user_performance) =
      .error "TypeError: NoneType object is not subscriptable" :=
  ⟨by with_unfolding_all rfl, by with_unfolding_all rfl⟩

/-- C4 (counterexample): the self-assessment file has the `X` column but
user `A`'s cell there is empty; the loader nevertheless stores a score
entry for `X` (as NaN, modelled `none`), and the combine step attaches a
`normalized_self_assessment` to the user's `X` category — although the
claim says neither may exist without a non-missing value. -/
theorem C4_counterexample :
    (load_all_data qrows1 rfile1 (some safile4)).map
        (fun m => m.users.map (fun p => (p.1, p.2.self_assessment.map SelfAssessment.scores)))
      = .ok [("A", some [("X", none)])] ∧
    (load_all_data qrows1 rfile1 (some safile4)).map
        (fun m => m.users.map (fun p => (p.1, p.2.score_by_category)))
      = .ok [("A", [("X",
          { points_earned := 1, points_possible := 1, normalized_score := 1,
            normalized_self_assessment := some none })])] :=
  ⟨by with_unfolding_all rfl, by with_unfolding_all rfl⟩

/-- C5: every comparison bucket counts exactly the entries meeting its
strict threshold: accurate iff `|difference| < 0.1`, overestimate iff
`difference < -0.1`, underestimate iff `difference > 0.1` (a NaN
difference falls in no bucket; a difference of exactly 0.1 falls in no
bucket either). -/
theorem C5_comparison_counts (S : List String) (mx : ℚ) (u : UserData)
    (ua : UserAnalysis) (h : analyze_user S mx u = .ok ua) :
    ua.comparison.accurate_count = ua.comparison.by_category.countP
      (fun e => (Comparison.difference e).elim false (fun d => decide (|d| < 1/10))) ∧
    ua.comparison.overestimate_count = ua.comparison.by_category.countP
      (fun e => (Comparison.difference e).elim false (fun d => decide (d < -(1/10)))) ∧
    ua.comparison.underestimate_count = ua.comparison.by_category.countP
      (fun e => (Comparison.difference e).elim false (fun d => decide ((1/10 : ℚ) < d))) := by
  cases hc : cat_loop S mx u.self_assessment u.score_by_category with
  | error e =>
    exfalso
    simp [analyze_user, hc] at h
  | ok t =>
    obtain ⟨ms, ss, cs⟩ := t
    obtain ⟨ua', hua', hby, hacc, hov, hun, _, _, _⟩ := analyze_user_ok S mx u hc
    have he : ua' = ua := by
      rw [hua'] at h
      injection h
    subst he
    rw [hby]
    refine ⟨?_, ?_, ?_⟩
    · rw [hacc]
      refine List.countP_congr (fun e _ => ?_)
      cases hd : e.difference <;> simp [is_accurate, hd]
    · rw [hov]
      refine List.countP_congr (fun e _ => ?_)
      cases hd : e.difference <;> simp [is_overestimate, hd]
    · rw [hun]
      refine List.countP_congr (fun e _ => ?_)
      cases hd : e.difference <;> simp [is_underestimate, hd]

/-- Witness for C5 on a user whose single comparison difference is exactly
0.1: no bucket counts it. -/
theorem C5_witness :
    analyze_user ["X"] (10 : ℚ) u5 = .ok ua5 ∧
    ua5.comparison.by_category.length = 1 ∧
    ua5.comparison.accurate_count = 0 ∧
    ua5.comparison.overestimate_count = 0 ∧
    ua5.comparison.underestimate_count = 0 ∧
    ua5.comparison.accurate_count = ua5.comparison.by_category.countP
      (fun e => (Comparison.difference e).elim false (fun d => decide (|d| < 1/10))) := by
  have h := C5_comparison_counts ["X"] 10 u5 ua5 (by with_unfolding_all rfl)
  exact ⟨by with_unfolding_all rfl, by with_unfolding_all rfl, by with_unfolding_all rfl,
    by with_unfolding_all rfl, by with_unfolding_all rfl, h.1⟩

/-- C6: the proficiency record is absent exactly when the user has no
comparison entries; otherwise, when the differences are real numbers (no
NaN), `overall_proficiency` is `0.60*quiz_percentage + 0.20*accuracy_score
+ 0.20*consistency_score` rounded to one decimal, where the consistency
score caps the population standard deviation of the differences at 1 and a
single difference has standard deviation 0. -/
theorem C6_proficiency_formula (perf : ℚ) (comps : List Comparison) :
    (calculate_proficiency_score perf comps = none ↔ comps = []) ∧
    ∀ p, calculate_proficiency_score perf comps = some p →
      ∀ ds, seqOpt (comps.map Comparison.difference) = some ds →
        p.overall_proficiency = some (spec_overall perf ds) := by
  constructor
  · cases comps with
    | nil => simp [calculate_proficiency_score]
    | cons hd tl => simp [calculate_proficiency_score]
  · intro p hp ds hds
    cases hne : comps with
    | nil =>
      rw [hne] at hp
      simp [calculate_proficiency_score] at hp
    | cons hd tl =>
      have hempty : comps.isEmpty = false := by rw [hne]; rfl
      have hlen := seqOpt_length hds
      have ha : accuracy_of (comps.map Comparison.difference) =
          some (spec_accuracy ds) := by
        rw [accuracy_of, nsum_seqOpt (seqOpt_map abs hds)]
        simp only [Option.map_some', spec_accuracy]
        rw [List.length_map] at hlen
        rw [List.length_map, ← hlen]
      have hstd : std_dev_of (comps.map Comparison.difference) =
          some (spec_std_dev ds) := by
        rw [std_dev_of, spec_std_dev]
        by_cases hl : 1 < (comps.map Comparison.difference).length
        · rw [if_pos hl, hds, if_neg (by rw [hlen]; exact Nat.not_le.2 hl)]
          rfl
        · rw [if_neg hl, if_pos (by rw [hlen]; exact Nat.not_lt.1 hl)]
      have hcons : consistency_of (comps.map Comparison.difference) =
          some (spec_consistency ds) := by
        rw [consistency_of, hstd]
        rfl
      rw [calculate_proficiency_score, hempty] at hp
      simp only [Bool.false_eq_true, if_false, ha, hcons, Option.some.injEq] at hp
      rw [← hp]
      rfl

/-- Witness for C6 at one comparison entry with difference 0 and 80% quiz
performance. -/
theorem C6_witness :
    (calculate_proficiency_score 80 cs6 = none ↔ cs6 = []) ∧
    p6.overall_proficiency = some (spec_overall 80 [0]) := by
  refine ⟨(C6_proficiency_formula 80 cs6).1, ?_⟩
  exact (C6_proficiency_formula 80 cs6).2 p6 (by with_unfolding_all rfl) [0]
    (by with_unfolding_all rfl)

/-- Every response stored in a loaded model was graded from some question
of the bank by `make_response`. -/
theorem model_entries (qrows : List QRow) (rf : RespFile) (saf : Option SAFile)
    (m : Model) (hm : load_all_data qrows rf saf = .ok m) :
    ∀ p ∈ m.users, ∀ e ∈ (Prod.snd (α := String) p).responses,
      ∃ q row, (e.1, q) ∈ load_questions qrows ∧
        Prod.snd e = make_response q row := by
  obtain ⟨us1, us2, h1, h2, hm2⟩ := load_all_destruct qrows rf saf m hm
  have hus1 := load_responses_destruct _ _ _ h1
  have hent1 : ∀ p ∈ us1, ∀ e ∈ (Prod.snd (α := String) p).responses,
      ∃ q row, (e.1, q) ∈ load_questions qrows ∧ Prod.snd e = make_response q row := by
    rw [hus1]
    exact resp_entries_fold (load_questions qrows) rf.cols rf.rows []
      (by intro p hp; simp at hp)
  have hent2 : ∀ p ∈ us2, ∀ e ∈ (Prod.snd (α := String) p).responses,
      ∃ q row, (e.1, q) ∈ load_questions qrows ∧ Prod.snd e = make_response q row := by
    cases saf with
    | none =>
      have : us1 = us2 := by injection h2
      rw [← this]
      exact hent1
    | some f =>
      have hus2 := load_sa_destruct _ f _ _ h2
      rw [hus2]
      intro p hp e he
      obtain ⟨u, hu, hresp⟩ := sa_fold_preserves (quiz_categories qrows) f.cols f.rows us1 p hp
      rw [hresp] at he
      exact hent1 (p.1, u) hu e he
  subst hm2
  intro p hp e he
  obtain ⟨u, hu, hpe⟩ := List.mem_map.1 hp
  rw [← hpe] at he
  exact hent2 u hu e he

/-- C9: when the self-assessment file is absent, loading does not fail (a
warning is printed): the load completes with the normalized model of the
response data, and every user ends up with no self-assessment record. -/
theorem C9_missing_sa_file_tolerated (qrows : List QRow) (rf : RespFile)
    (us1 : List (String × LoadedUser))
    (h : load_responses (load_questions qrows) rf = .ok us1) :
    load_all_data qrows rf none = .ok (combine_data (load_questions qrows) us1) ∧
    ∀ p ∈ (combine_data (load_questions qrows) us1).users,
      (Prod.snd p).self_assessment = none := by
  constructor
  · unfold load_all_data
    rw [h]
    rfl
  · intro p hp
    obtain ⟨u, hu, hpe⟩ := List.mem_map.1 hp
    have hsa : u.2.self_assessment = none := by
      have hus := load_responses_destruct _ _ _ h
      exact resp_sa_none_fold (load_questions qrows) rf.cols rf.rows []
        (by intro p hp; simp at hp) u (hus ▸ hu)
    rw [← hpe]
    exact hsa

/-- Witness for C9 on the single-user fixture. -/
theorem C9_witness :
    load_all_data qrows1 rfile1 none = .ok (combine_data (load_questions qrows1) us1c) ∧
    ∀ p ∈ (combine_data (load_questions qrows1) us1c).users,
      (Prod.snd p).self_assessment = none :=
  C9_missing_sa_file_tolerated qrows1 rfile1 us1c (by with_unfolding_all rfl)

/-- C7: in every loaded model, each user's `total_score.points_possible`
is the sum of the worths of exactly that user's recorded responses, and
(under the spec's input contract of non-negative question worths)
`points_earned` never exceeds `points_possible`. -/
theorem C7_total_score_invariant (qrows : List QRow) (rf : RespFile)
    (saf : Option SAFile) (m : Model) (hm : load_all_data qrows rf saf = .ok m)
    (hw : ∀ r ∈ qrows, 0 ≤ r.value) :
    ∀ p ∈ m.users,
      (Prod.snd p).total_score.points_possible =
        (((Prod.snd p).responses).map (fun e => (Prod.snd e).worth)).sum ∧
      (Prod.snd p).total_score.points_earned ≤ (Prod.snd p).total_score.points_possible := by
  have hent := model_entries qrows rf saf m hm
  intro p hp
  refine ⟨?_, ?_⟩
  · obtain ⟨us1, us2, h1, h2, hm2⟩ := load_all_destruct qrows rf saf m hm
    subst hm2
    obtain ⟨u, hu, hpe⟩ := List.mem_map.1 hp
    rw [← hpe]
    rfl
  · have hpt : ∀ e ∈ (Prod.snd (α := String) p).responses,
        (Prod.snd e).points_earned ≤ (Prod.snd e).worth := by
      intro e he
      obtain ⟨q, row, hq, he2⟩ := hent p hp e he
      have hq0 : 0 ≤ q.worth := by
        obtain ⟨r, hr, hqe⟩ := mem_load_questions_from qrows 0 (e.1, q) hq
        have : q.worth = r.value := by rw [show q = Prod.snd ((e.1, q)) from rfl, hqe]
        rw [this]
        exact hw r hr
      rw [he2]
      exact make_response_earned_le q row hq0
    obtain ⟨us1, us2, h1, h2, hm2⟩ := load_all_destruct qrows rf saf m hm
    subst hm2
    obtain ⟨u, hu, hpe⟩ := List.mem_map.1 hp
    rw [← hpe] at hpt ⊢
    exact List.sum_le_sum hpt

/-- Witness for C7 on the single-user fixture. -/
theorem C7_witness :
    load_all_data qrows1 rfile1 none = .ok m1c ∧
    ∀ p ∈ m1c.users,
      (Prod.snd p).total_score.points_possible =
        (((Prod.snd p).responses).map (fun e => (Prod.snd e).worth)).sum ∧
      (Prod.snd p).total_score.points_earned ≤ (Prod.snd p).total_score.points_possible :=
  ⟨by with_unfolding_all rfl,
   C7_total_score_invariant qrows1 rfile1 none m1c (by with_unfolding_all rfl)
     (by intro r hr; rcases List.mem_singleton.1 hr; decide)⟩

/-- C8: every loaded response was graded by exact, case-sensitive equality
against its question's correct answer, earning the full worth when correct
and 0 otherwise, with the worth copied from the question. -/
theorem C8_exact_grading (qrows : List QRow) (rf : RespFile) (saf : Option SAFile)
    (m : Model) (hm : load_all_data qrows rf saf = .ok m) :
    ∀ p ∈ m.users, ∀ e ∈ (Prod.snd (α := String) p).responses,
      ∃ q, (e.1, q) ∈ load_questions qrows ∧
        (Prod.snd e).is_correct = decide ((Prod.snd e).answer = some q.correct_answer) ∧
        (Prod.snd e).points_earned =
          (if (Prod.snd e).is_correct then q.worth else 0) ∧
        (Prod.snd e).worth = q.worth := by
  intro p hp e he
  obtain ⟨q, row, hq, he2⟩ := model_entries qrows rf saf m hm p hp e he
  exact ⟨q, hq, by rw [he2]; rfl, by rw [he2]; rfl, by rw [he2]; rfl⟩

/-- Witness for C8 on Scenario D: the answer `a` against correct answer
`A` is graded incorrect (no case folding) and earns 0 points. -/
theorem C8_witness :
    (∀ p ∈ mDc.users, ∀ e ∈ (Prod.snd (α := String) p).responses,
      ∃ q, (e.1, q) ∈ load_questions qrowsD ∧
        (Prod.snd e).is_correct = decide ((Prod.snd e).answer = some q.correct_answer) ∧
        (Prod.snd e).points_earned =
          (if (Prod.snd e).is_correct then q.worth else 0) ∧
        (Prod.snd e).worth = q.worth) ∧
    ((alookup mDc.users "A").map (fun u =>
        u.responses.map (fun e => (e.1, e.2.is_correct, e.2.points_earned)))) =
      some [("Q1", false, 0)] :=
  ⟨C8_exact_grading qrowsD rfileD none mDc (by with_unfolding_all rfl),
   by with_unfolding_all rfl⟩

/-- C10: duplicate rows for one user keep a single user record; for each
question the stored response is the one derived from the last row (in file
order) mentioning the user, earlier rows being overwritten; and a user
appearing on several self-assessment rows keeps only the last row's
scores. -/
theorem C10_last_row_wins (qs : List (String × Question)) (rf : RespFile)
    (cats : List String) (saf : SAFile) (us usp : List (String × LoadedUser))
    (h1 : load_responses qs rf = .ok us)
    (h2 : load_self_assessment cats (some saf) us = .ok usp) :
    (us.map Prod.fst).Nodup ∧ usp.map Prod.fst = us.map Prod.fst ∧
    (∀ uid u, alookup us uid = some u →
      ∃ row, lastRowFor rf.rows uid = some row ∧ u.self_assessment = none ∧
        ∀ qid, alookup u.responses qid = alookup (row_responses qs rf.cols row) qid) ∧
    (∀ uid u, alookup us uid = some u →
      ∃ up, alookup usp uid = some up ∧ up.responses = u.responses ∧
        up.self_assessment =
          (match lastSARowFor saf.rows uid with
           | some row => some (make_sa_record cats saf.cols row)
           | none => u.self_assessment)) := by
  have hus := load_responses_destruct _ _ _ h1
  have husp := load_sa_destruct _ _ _ _ h2
  have hsupp : ∀ uid u qid, alookup ([] : List (String × LoadedUser)) uid = some u →
      lastWrite qs rf.cols qid = none → alookup u.responses qid = none := by
    intro uid u qid hctr _
    simp [alookup] at hctr
  refine ⟨?_, ?_, ?_, ?_⟩
  · rw [hus]
    exact nodup_keys_fold qs rf.cols rf.rows [] (by simp)
  · rw [husp, keys_sa_fold]
  · intro uid u hu
    have hext := resp_fold_ext qs rf.cols rf.rows [] hsupp uid
    rw [← hus] at hext
    cases h : lastRowFor rf.rows uid with
    | none =>
      rw [h] at hext
      rw [hext] at hu
      simp [alookup] at hu
    | some row =>
      rw [h] at hext
      obtain ⟨u0, hu0, hsa0, hresp0⟩ := hext
      rw [hu0] at hu
      injection hu with hu
      subst hu
      exact ⟨row, rfl, hsa0, hresp0⟩
  · intro uid u hu
    have hlk := sa_fold_lookup cats saf.cols saf.rows us uid
    rw [← husp, hu] at hlk
    cases h : lastSARowFor saf.rows uid with
    | some row =>
      rw [h] at hlk
      simp only [Option.map_some'] at hlk
      exact ⟨_, hlk, rfl, rfl⟩
    | none =>
      rw [h] at hlk
      simp only [Option.map_some'] at hlk
      exact ⟨_, hlk, rfl, rfl⟩

/-- Witness for C10 on files where user `A` appears on two response rows
and two self-assessment rows. -/
theorem C10_witness :
    (usc10.map Prod.fst).Nodup ∧ usc10p.map Prod.fst = usc10.map Prod.fst ∧
    (∀ uid u, alookup usc10 uid = some u →
      ∃ row, lastRowFor rfileDup.rows uid = some row ∧ u.self_assessment = none ∧
        ∀ qid, alookup u.responses qid =
          alookup (row_responses (load_questions qrows1) rfileDup.cols row) qid) ∧
    (∀ uid u, alookup usc10 uid = some u →
      ∃ up, alookup usc10p uid = some up ∧ up.responses = u.responses ∧
        up.self_assessment =
          (match lastSARowFor safDup.rows uid with
           | some row => some (make_sa_record (quiz_categories qrows1) safDup.cols row)
           | none => u.self_assessment)) :=
  C10_last_row_wins (load_questions qrows1) rfileDup (quiz_categories qrows1) safDup
    usc10 usc10p (by with_unfolding_all rfl) (by with_unfolding_all rfl)

theorem keys_sa_row_scores (cats cols : List String) (row : SARow) :
    (sa_row_scores cats cols row).map Prod.fst = cats.filter (fun c => c ∈ cols) := by
  rw [sa_row_scores, List.map_map]
  have h : (Prod.fst ∘ fun c => (c, (alookup row.cells c).getD none)) =
      fun c : String => c := rfl
  rw [h, List.map_id']

/-- C4 (amended): a user's stored self-assessment record is exactly the
one built from the last self-assessment row mentioning them: its keys are
exactly the quiz categories that appear as columns of the file (whether or
not the user's cell is missing — a missing cell is stored as NaN), and
each stored value is the raw cell value; no score of 0 is synthesized. -/
theorem C4_amended_sa_entries (qrows : List QRow) (rf : RespFile) (saf : SAFile)
    (m : Model) (hm : load_all_data qrows rf (some saf) = .ok m) :
    ∀ p ∈ m.users, ∀ sa, (Prod.snd p).self_assessment = some sa →
      ∃ row, lastSARowFor saf.rows p.1 = some row ∧
        sa = make_sa_record (quiz_categories qrows) saf.cols row ∧
        sa.scores.map Prod.fst =
          (quiz_categories qrows).filter (fun c => c ∈ saf.cols) ∧
        ∀ e ∈ sa.scores, Prod.snd e = (alookup row.cells e.1).getD none := by
  obtain ⟨us1, us2, h1, h2, hm2⟩ := load_all_destruct qrows rf (some saf) m hm
  have hus1 := load_responses_destruct _ _ _ h1
  have hus2 := load_sa_destruct _ _ _ _ h2
  have hnd1 : (us1.map Prod.fst).Nodup := by
    rw [hus1]
    exact nodup_keys_fold _ _ _ [] (by simp)
  have hnd2 : (us2.map Prod.fst).Nodup := by
    rw [hus2, keys_sa_fold]
    exact hnd1
  subst hm2
  intro p hp sa hsa
  obtain ⟨u, hu, hpe⟩ := List.mem_map.1 hp
  have hp1 : p.1 = u.1 := by rw [← hpe]
  have hsa2 : u.2.self_assessment = some sa := by
    have hh : (Prod.snd p).self_assessment = u.2.self_assessment := by
      rw [← hpe]
      rfl
    rw [← hh, hsa]
  have hlk2 : alookup us2 u.1 = some u.2 :=
    alookup_of_mem_nodup (by simpa using hu) hnd2
  have hfold := sa_fold_lookup (quiz_categories qrows) saf.cols saf.rows us1 u.1
  rw [← hus2, hlk2] at hfold
  cases halo : alookup us1 u.1 with
  | none =>
    rw [halo] at hfold
    simp at hfold
  | some u1 =>
    rw [halo] at hfold
    simp only [Option.map_some'] at hfold
    injection hfold with hfold
    have h1sa : u1.self_assessment = none := by
      have hmem : (u.1, u1) ∈ us1 := alookup_mem halo
      rw [hus1] at hmem
      exact resp_sa_none_fold (load_questions qrows) rf.cols rf.rows []
        (by intro pp hpp; simp at hpp) (u.1, u1) hmem
    cases hlast : lastSARowFor saf.rows u.1 with
    | none =>
      exfalso
      rw [hlast] at hfold
      have hfold2 : u.2 = u1 := hfold
      rw [hfold2, h1sa] at hsa2
      exact Option.noConfusion hsa2
    | some row =>
      rw [hlast] at hfold
      have hfold2 : u.2 =
          { u1 with
            self_assessment := some (make_sa_record (quiz_categories qrows) saf.cols row) } :=
        hfold
      have hsa3 : sa = make_sa_record (quiz_categories qrows) saf.cols row := by
        have hh : some sa =
            some (make_sa_record (quiz_categories qrows) saf.cols row) := by
          rw [← hsa2, hfold2]
        exact Option.some.inj hh
      refine ⟨row, by rw [hp1]; exact hlast, hsa3, ?_, ?_⟩
      · rw [hsa3]
        exact keys_sa_row_scores _ _ _
      · intro e he
        rw [hsa3] at he
        obtain ⟨c, hc, hce⟩ := List.mem_map.1 he
        rw [← hce]

/-- Witness for the amended C4 at the empty-cell fixture. -/
theorem C4_witness :
    load_all_data qrows1 rfile1 (some safile4) = .ok m4c ∧
    ∀ p ∈ m4c.users, ∀ sa, (Prod.snd p).self_assessment = some sa →
      ∃ row, lastSARowFor safile4.rows p.1 = some row ∧
        sa = make_sa_record (quiz_categories qrows1) safile4.cols row ∧
        sa.scores.map Prod.fst =
          (quiz_categories qrows1).filter (fun c => c ∈ safile4.cols) ∧
        ∀ e ∈ sa.scores, Prod.snd e = (alookup row.cells e.1).getD none :=
  ⟨by with_unfolding_all rfl,
   C4_amended_sa_entries qrows1 rfile1 safile4 m4c (by with_unfolding_all rfl)⟩

/-- C3 (counterexample): in the two-user model, category `X` is in the
global self-assessed set and user `B` has positive possible points in it,
so the claim demands a comparison entry for (`B`, `X`); but the analysis
faults on user `B`'s absent self-assessment record, and no comparison
entry is produced at all. -/
theorem C3_counterexample :
    load_all_data qrows1 rfile2 (some safile2) = .ok m2 ∧
    "X" ∈ m2.metadata.sa_categories ∧
    0 < possibleOfD m2 "B" "X" ∧
    analyze_user_performance m2 = .error "TypeError: NoneType object is not subscriptable" :=
  ⟨by with_unfolding_all rfl, by with_unfolding_all decide, by with_unfolding_all decide,
   by with_unfolding_all rfl⟩

/-- C3 (amended): provided every user with positive quiz points in a
globally self-assessed category has a non-missing self-assessment value
for it (the coverage the loader delivers for users that appear in the
self-assessment file), the analysis succeeds, and for every user a
comparison entry is produced for a category if and only if the category is
in the global self-assessed set and the user's `points_possible` for it is
strictly positive; each entry's difference is the user's normalized quiz
score for the category minus the self score divided by 10. -/
theorem C3_amended_comparison_emission (qs : List (String × Question))
    (users : List (String × LoadedUser)) (hcov : covOK qs users = true) :
    (∃ a, analyze_user_performance (combine_data qs users) = .ok a) ∧
    ∀ p ∈ users, ∃ ua,
      analyze_user (sa_categories_of users) 10
        (make_user_data qs (Prod.snd (α := String) p)) = .ok ua ∧
      (∀ c, (∃ e ∈ ua.comparison.by_category, Comparison.category e = c) ↔
        (c ∈ sa_categories_of users ∧
          0 < points_possible_in qs (Prod.snd (α := String) p) c)) ∧
      (∀ e ∈ ua.comparison.by_category,
        ∃ sa v, (Prod.snd (α := String) p).self_assessment = some sa ∧
          alookup sa.scores (Comparison.category e) = some (some v) ∧
          Comparison.difference e = some
            ((make_cat_score qs (Prod.snd (α := String) p)
              (Comparison.category e)).normalized_score - v / 10)) := by
  have hspec := covOK_spec qs users hcov
  have huser : ∀ p ∈ users, ∃ ua,
      analyze_user (sa_categories_of users) 10
        (make_user_data qs (Prod.snd (α := String) p)) = .ok ua ∧
      (∀ c, (∃ e ∈ ua.comparison.by_category, Comparison.category e = c) ↔
        (c ∈ sa_categories_of users ∧
          0 < points_possible_in qs (Prod.snd (α := String) p) c)) ∧
      (∀ e ∈ ua.comparison.by_category,
        ∃ sa v, (Prod.snd (α := String) p).self_assessment = some sa ∧
          alookup sa.scores (Comparison.category e) = some (some v) ∧
          Comparison.difference e = some
            ((make_cat_score qs (Prod.snd (α := String) p)
              (Comparison.category e)).normalized_score - v / 10)) := by
    intro p hp
    have hGood : ∀ q ∈ (make_user_data qs p.2).score_by_category,
        (Prod.fst (β := CatScore) q) ∈ sa_categories_of users →
        0 < (Prod.snd (α := String) q).points_possible →
        p.2.self_assessment ≠ none ∧
        (Prod.snd (α := String) q).normalized_self_assessment ≠ none := by
      intro q hq hmem hpos
      have hq0 : q ∈ (user_categories qs p.2).map
          (fun c => (c, make_cat_score qs p.2 c)) := hq
      obtain ⟨c, hc, hqe⟩ := List.mem_map.1 hq0
      have hq1 : q.1 = c := by rw [← hqe]
      have hq2 : q.2 = make_cat_score qs p.2 c := by rw [← hqe]
      have hpos2 : 0 < points_possible_in qs p.2 c := by
        rw [hq2] at hpos
        exact hpos
      obtain ⟨sa, v, hsa, hlk⟩ := hspec p hp c (hq1 ▸ hmem) hpos2
      constructor
      · rw [hsa]
        simp
      · rw [hq2]
        have hns : (make_cat_score qs p.2 c).normalized_self_assessment =
            some (Option.map (fun s => s / 10) (some v)) := by
          show (p.2.self_assessment.bind fun sa0 =>
            (alookup sa0.scores c).map fun v0 => v0.map fun s => s / 10) = _
          rw [hsa]
          show ((alookup sa.scores c).map fun v0 => v0.map fun s => s / 10) = _
          rw [hlk]
          rfl
        rw [hns]
        simp
    obtain ⟨ms, ss, cs, hok, hcs⟩ :=
      cat_loop_ok (sa_categories_of users) 10 p.2.self_assessment
        (make_user_data qs p.2).score_by_category hGood
    obtain ⟨ua, hua, hby, _, _, _, _, _, _⟩ :=
      analyze_user_ok (sa_categories_of users) 10 (make_user_data qs p.2) hok
    refine ⟨ua, hua, ?_, ?_⟩
    · intro c
      rw [hby, hcs]
      constructor
      · rintro ⟨e, he, hec⟩
        obtain ⟨q, hqf, hqe⟩ := List.mem_map.1 he
        have hqcond : q.1 ∈ sa_categories_of users ∧ 0 < q.2.points_possible :=
          of_decide_eq_true (List.mem_filter.1 hqf).2
        have hqm : q ∈ (user_categories qs p.2).map
            (fun c => (c, make_cat_score qs p.2 c)) := (List.mem_filter.1 hqf).1
        obtain ⟨c', hc', hq'⟩ := List.mem_map.1 hqm
        have hc1 : q.1 = c' := by rw [← hq']
        have hq2 : q.2 = make_cat_score qs p.2 c' := by rw [← hq']
        have hcat : Comparison.category e = q.1 := by
          rw [← hqe]
          rfl
        subst hec
        constructor
        · rw [hcat]
          exact hqcond.1
        · rw [hcat, hc1]
          have hh := hqcond.2
          rw [hq2] at hh
          exact hh
      · rintro ⟨hmem, hpos⟩
        have hcm : c ∈ user_categories qs p.2 := possible_pos_mem qs p.2 c hpos
        have hqL : (c, make_cat_score qs p.2 c) ∈
            (make_user_data qs p.2).score_by_category :=
          (List.mem_map.2 ⟨c, hcm, rfl⟩ :
            (c, make_cat_score qs p.2 c) ∈ (user_categories qs p.2).map
              (fun c => (c, make_cat_score qs p.2 c)))
        refine ⟨comp_of (c, make_cat_score qs p.2 c), ?_, rfl⟩
        refine List.mem_map.2 ⟨(c, make_cat_score qs p.2 c), ?_, rfl⟩
        refine List.mem_filter.2 ⟨hqL, ?_⟩
        rw [decide_eq_true_eq]
        exact ⟨hmem, hpos⟩
    · intro e he
      rw [hby, hcs] at he
      obtain ⟨q, hqf, hqe⟩ := List.mem_map.1 he
      have hqcond : q.1 ∈ sa_categories_of users ∧ 0 < q.2.points_possible :=
        of_decide_eq_true (List.mem_filter.1 hqf).2
      have hqm : q ∈ (user_categories qs p.2).map
          (fun c => (c, make_cat_score qs p.2 c)) := (List.mem_filter.1 hqf).1
      obtain ⟨c', hc', hq'⟩ := List.mem_map.1 hqm
      have hq1 : q.1 = c' := by rw [← hq']
      have hq2 : q.2 = make_cat_score qs p.2 c' := by rw [← hq']
      have hpos2 : 0 < points_possible_in qs p.2 c' := by
        have hh := hqcond.2
        rw [hq2] at hh
        exact hh
      obtain ⟨sa, v, hsa, hlk⟩ := hspec p hp c' (hq1 ▸ hqcond.1) hpos2
      have hcat : Comparison.category e = c' := by
        rw [← hqe]
        exact hq1
      refine ⟨sa, v, hsa, ?_, ?_⟩
      · rw [hcat]
        exact hlk
      · have hns : q.2.normalized_self_assessment = some (some (v / 10)) := by
          rw [hq2]
          show (p.2.self_assessment.bind fun sa0 =>
            (alookup sa0.scores c').map fun v0 => v0.map fun s => s / 10) = _
          rw [hsa]
          show ((alookup sa.scores c').map fun v0 => v0.map fun s => s / 10) = _
          rw [hlk]
          rfl
        have hdiff : Comparison.difference e =
            (q.2.normalized_self_assessment.getD none).map
              (fun x => q.2.normalized_score - x) := by
          rw [← hqe]
          rfl
        rw [hdiff, hns]
        show some (q.2.normalized_score - v / 10) = _
        rw [hcat, hq2]
  refine ⟨?_, huser⟩
  have hgoal : ∃ a, (combine_data qs users).users.mapM
      (fun p => (analyze_user (combine_data qs users).metadata.sa_categories
        (combine_data qs users).metadata.sa_max_score p.2).map (fun ua => (p.1, ua)))
      = .ok a := by
    apply mapM_ok_of
    intro x hx
    have hx0 : x ∈ users.map (fun p => (p.1, make_user_data qs p.2)) := hx
    obtain ⟨p, hp, hxe⟩ := List.mem_map.1 hx0
    obtain ⟨ua, hua, _, _⟩ := huser p hp
    refine ⟨(p.1, ua), ?_⟩
    rw [← hxe]
    show (analyze_user (sa_categories_of users) 10 (make_user_data qs p.2)).map
      (fun ua => (p.1, ua)) = .ok (p.1, ua)
    rw [hua]
    rfl
  exact hgoal

/-- Witness for the amended C3: a single fully self-assessed user. -/
theorem C3_witness :
    (∃ a, analyze_user_performance (combine_data qs3 users3) = .ok a) ∧
    ∀ p ∈ users3, ∃ ua,
      analyze_user (sa_categories_of users3) 10
        (make_user_data qs3 (Prod.snd (α := String) p)) = .ok ua ∧
      (∀ c, (∃ e ∈ ua.comparison.by_category, Comparison.category e = c) ↔
        (c ∈ sa_categories_of users3 ∧
          0 < points_possible_in qs3 (Prod.snd (α := String) p) c)) ∧
      (∀ e ∈ ua.comparison.by_category,
        ∃ sa v, (Prod.snd (α := String) p).self_assessment = some sa ∧
          alookup sa.scores (Comparison.category e) = some (some v) ∧
          Comparison.difference e = some
            ((make_cat_score qs3 (Prod.snd (α := String) p)
              (Comparison.category e)).normalized_score - v / 10)) :=
  C3_amended_comparison_emission qs3 users3 (by with_unfolding_all decide)

end QuizTool
